import Mathlib

/-!
Verification of the ttxd DVB-Teletext acquisition pipeline (src/ttxd.c)
against its natural-language specification.

Bytes are modelled as `Nat` (the C code reads `uint8_t` values; overflow
never arises in the modelled arithmetic, all values stay below 2^16).
Byte buffers are `List Nat`.  The file-scope mutable state of the C
program is threaded explicitly.
-/

/- ================================================================
   Component B — TS framer (curl_write_cb, src/ttxd.c lines 320-357)
   ================================================================ -/

/-- The packet cutter underlying steps 2-3 of `curl_write_cb`: repeatedly
peel complete 188-octet packets off the front of a byte sequence and
return the packets in order together with the remaining 0..187 octets. -/
def emitBlocks (s : List Nat) : List (List Nat) × List Nat :=
  if _h : 188 ≤ s.length then
    let r := emitBlocks (s.drop 188)
    (s.take 188 :: r.1, r.2)
  else ([], s)
termination_by s.length
decreasing_by simp only [List.length_drop]; omega

/-- TS alignment carry buffer (`g_carry` / `g_carry_len`): the prefix of a
TS packet that straddles a network-read boundary. -/
structure Framer where
  carry : List Nat
deriving DecidableEq, Repr

/-- State of the framer at connection start (`g_carry_len = 0`). -/
def framerInit : Framer := ⟨[]⟩

/-- One libcurl write callback (`curl_write_cb`): drain the carry buffer
from the head of the chunk, emit the completed carry packet if it reaches
188 octets, emit the complete packets contained in the rest of the chunk,
and save the remaining 0..187 octets in the carry buffer.  Returns the
sequence of 188-octet packets handed to `process_ts_packet`, in order. -/
def curl_write_cb (st : Framer) (chunk : List Nat) : List (List Nat) × Framer :=
  if 0 < st.carry.length then
    let need := 188 - st.carry.length
    let tk := min chunk.length need
    let carry1 := st.carry ++ chunk.take tk
    if carry1.length = 188 then
      let r := emitBlocks (chunk.drop tk)
      (carry1 :: r.1, ⟨r.2⟩)
    else
      ([], ⟨carry1⟩)
  else
    let r := emitBlocks chunk
    (r.1, ⟨r.2⟩)

/-- Feed a sequence of network chunks through the framer one at a time,
collecting all packets handed to `process_ts_packet` in order. -/
def feedAll (st : Framer) : List (List Nat) → List (List Nat) × Framer
  | [] => ([], st)
  | c :: cs =>
    let r := curl_write_cb st c
    let rr := feedAll r.2 cs
    (r.1 ++ rr.1, rr.2)

/- ================================================================
   Components C,D — TS packet filter and PES reassembler
   (process_ts_packet, src/ttxd.c lines 257-314)
   ================================================================ -/

/-- PES accumulation state: the bytes of `g_pes[0..g_pes_len)` and the
expected total size `g_pes_target` (0 = unbounded, complete on next
payload-unit-start indicator). -/
structure PesState where
  pes : List Nat
  target : Nat
deriving DecidableEq, Repr

/-- The accumulator state at startup and after every per-connection reset
(`g_pes_len = 0`, `g_pes_target = 0`, src/ttxd.c lines 66-68, 454-457). -/
def pes_init : PesState := ⟨[], 0⟩

/-- Observable outcome of one `process_ts_packet` call: the new
accumulator state, the accumulator contents handed to `dispatch_pes`, in
order, and whether the PES-overflow diagnostic was printed.  Those are the
only externally visible actions of the function. -/
structure StepOut where
  st : PesState
  dispatched : List (List Nat)
  overflow : Bool
deriving DecidableEq, Repr

/-- The transport-layer checks of `process_ts_packet` (lines 259-279): sync
byte, transport-error bit, PID match, payload-present flag, adaptation
field skip.  Returns the payload-unit-start flag and the payload slice, or
`none` when the packet is dropped.  (The C code computes
`payload_len = 188 - payload_offset`; on the 188-octet views handed in by
the framer this equals the length of `pkt.drop payload_offset`.) -/
def ts_filter (pid : Nat) (pkt : List Nat) : Option (Bool × List Nat) :=
  if pkt.getD 0 0 ≠ 0x47 then none
  else if pkt.getD 1 0 &&& 0x80 ≠ 0 then none
  else if ((pkt.getD 1 0 &&& 0x1F) <<< 8 ||| pkt.getD 2 0) ≠ pid then none
  else
    let pus := (pkt.getD 1 0 >>> 6) &&& 1 = 1
    let has_adaptation := pkt.getD 3 0 &&& 0x20 ≠ 0
    let has_payload := pkt.getD 3 0 &&& 0x10 ≠ 0
    if ¬ has_payload then none
    else
      let payload_offset := if has_adaptation then 5 + pkt.getD 4 0 else 4
      if 188 ≤ payload_offset then none
      else
        let payload := pkt.drop payload_offset
        if payload.length = 0 then none
        else some (decide pus, payload)

/-- The PES-reassembly tail of `process_ts_packet` (lines 281-313), acting
on an accepted packet's PUSI flag and payload: on PUSI dispatch any
pending accumulation and read the new expected size from payload bytes
4..5; append the payload unless it would overflow the 65548-octet buffer;
dispatch immediately once a bounded accumulation reaches its target. -/
def pes_step (st : PesState) (pus : Bool) (payload : List Nat) : StepOut :=
  let d0 : List (List Nat) := if pus = true ∧ 0 < st.pes.length then [st.pes] else []
  let st1 : PesState :=
    if pus = true then
      { pes := [],
        target :=
          if 6 ≤ payload.length then
            let pes_pkt_len := (payload.getD 4 0) <<< 8 ||| payload.getD 5 0
            if 0 < pes_pkt_len then 6 + pes_pkt_len else 0
          else 0 }
    else st
  if st1.pes.length + payload.length ≤ 65548 then
    let st2 : PesState := { pes := st1.pes ++ payload, target := st1.target }
    if 0 < st2.target ∧ st2.target ≤ st2.pes.length then
      { st := ⟨[], 0⟩, dispatched := d0 ++ [st2.pes], overflow := false }
    else
      { st := st2, dispatched := d0, overflow := false }
  else
    { st := ⟨[], 0⟩, dispatched := d0, overflow := true }

/-- One full `process_ts_packet` call on a 188-octet packet view. -/
def process_ts_packet (pid : Nat) (st : PesState) (pkt : List Nat) : StepOut :=
  match ts_filter pid pkt with
  | none => { st := st, dispatched := [], overflow := false }
  | some (pus, payload) => pes_step st pus payload

/- ================================================================
   Component E — PES header parser (dispatch_pes, src/ttxd.c 241-253)
   ================================================================ -/

/-- `dispatch_pes` on the accumulated bytes: validate length and the
`00 00 01` start code, read `PES_header_data_length` from byte 8, and
return the data payload handed to `feed_pes_data`, or `none` when the
content is dropped. -/
def dispatch_pes (pes : List Nat) : Option (List Nat) :=
  if pes.length < 9 then none
  else if pes.getD 0 0 ≠ 0x00 ∨ pes.getD 1 0 ≠ 0x00 ∨ pes.getD 2 0 ≠ 0x01 then none
  else
    let hdr_data_len := pes.getD 8 0
    let data_start := 9 + hdr_data_len
    if pes.length ≤ data_start then none
    else some (pes.drop data_start)

/-- The accumulator invariant of C10: the stored length never exceeds the
65548-octet buffer, and a bounded accumulation is always strictly below
its target between calls (it is dispatched and cleared in the call that
reaches the target). -/
def PesInv (st : PesState) : Prop :=
  st.pes.length ≤ 65548 ∧ (0 < st.target → st.pes.length < st.target)

/- Concrete packets used by the witnesses. -/

/-- A well-formed PUSI packet on PID 0x100: sync 0x47, PUSI set, payload
only, PES start code and `PES_packet_length` 20 in its payload. -/
def pktPusi : List Nat :=
  [0x47, 0x41, 0x00, 0x10, 0x00, 0x00, 0x01, 0xBD, 0x00, 0x14] ++
    List.replicate 178 0xFF

/-- A continuation (PUSI clear) packet on PID 0x100 with a 184-octet
payload. -/
def pktCont : List Nat :=
  [0x47, 0x01, 0x00, 0x10] ++ List.replicate 184 0xFF

/-- A packet whose sync byte is wrong. -/
def pktBad : List Nat := List.replicate 188 0

/- ================================================================
   Component F — VBI bridge feed loop (feed_pes_data, src/ttxd.c 205-226)
   ================================================================ -/

/-- The `feed_pes_data` loop with the external `vbi_dvb_demux_cor` as an
oracle: call number `i` returns `(lines, consumed)`, where `consumed` is
clipped to the remaining bytes (the demuxer consumes a prefix of the
buffer, advancing `p` and decrementing `rem` by the same amount, so
`p - data + rem` always equals the original `len`).  State: `c` bytes
consumed so far, so `rem = len - c`.  The loop body is translated
literally: while `rem > 0`, call the demuxer; break when
`lines == 0 && rem == p - data + rem`, i.e. when `lines = 0` and the
*total* consumption is still zero.  `some k` means the loop exited after
`k` calls; `none` means the fuel ran out (the loop is still running). -/
def feed_pes_loop (o : Nat → Nat × Nat) (len : Nat) : Nat → Nat → Nat → Option Nat
  | 0, _, _ => none
  | fuel + 1, i, c =>
    if len - c = 0 then some i
    else
      let r := o i
      let c2 := c + min r.2 (len - c)
      if r.1 = 0 ∧ c2 = 0 then some (i + 1)
      else feed_pes_loop o len fuel (i + 1) c2

/-- A demux behaviour in which every call either consumes at least one
byte or returns 0 lines (the claim's premise): the first call consumes one
byte producing no lines, every later call consumes nothing and produces
no lines. -/
def oSpin : Nat → Nat × Nat := fun i => if i = 0 then (0, 1) else (0, 0)

/- ================================================================
   Component I — supervisor / main (src/ttxd.c lines 389-492)
   ================================================================ -/

/-- The argument-validation prefix of `main` (lines 391-418) on the
argument count and the parsed (`atoi`) PID and UDP-port values: `false`
means the process prints usage or a diagnostic and returns 1 before any
socket is created.  The C test is `g_pid <= 0 || g_pid > 8191` and
`udp_port <= 0 || udp_port > 65535`. -/
def main_validate (argc : Nat) (pid udp_port : Int) : Bool :=
  if argc ≠ 5 then false
  else if pid ≤ 0 ∨ 8191 < pid then false
  else if udp_port ≤ 0 ∨ 65535 < udp_port then false
  else true

/-- The reconnect loop of `main` (lines 453-480): iteration `i` checks the
running flag (sampled at instant `2*i`), recreates the demuxer
(`zvbi i`; on failure the loop `break`s), performs the transfer, and
checks the running flag again (instant `2*i+1`).  Every exit from the
loop falls through to the cleanup code and `return 0`.  `some code` is
the exit code; `none` means the fuel ran out with the loop still
running. -/
def main_loop (zvbi running : Nat → Bool) : Nat → Nat → Option Nat
  | 0, _ => none
  | fuel + 1, i =>
    if running (2 * i) = false then some 0
    else if zvbi i = false then some 0
    else if running (2 * i + 1) = false then some 0
    else main_loop zvbi running fuel (i + 1)

/-- Exit-code model of `main`: validation, socket creation, first
`zvbi_init`, `curl_easy_init` — each failure returns 1 — then the
reconnect loop, all of whose exits return 0. -/
def main_exit (argc : Nat) (pid udp_port : Int)
    (socket_ok zvbi0_ok curl_ok : Bool)
    (zvbi running : Nat → Bool) (fuel : Nat) : Option Nat :=
  if main_validate argc pid udp_port = false then some 1
  else if socket_ok = false then some 1
  else if zvbi0_ok = false then some 1
  else if curl_ok = false then some 1
  else main_loop zvbi running fuel 0

/- ================================================================
   Component G — page serialiser (ttx_event_cb, src/ttxd.c 135-201,
   with utf8_encode lines 79-94 and json_escape lines 98-121)
   ================================================================ -/

/-- `utf8_encode` (lines 79-94): encode a codepoint in 1-3 octets. -/
def utf8_encode (cp : Nat) : List Nat :=
  if cp < 0x80 then [cp]
  else if cp < 0x800 then [0xC0 ||| (cp >>> 6), 0x80 ||| (cp &&& 0x3F)]
  else [0xE0 ||| (cp >>> 12), 0x80 ||| ((cp >>> 6) &&& 0x3F), 0x80 ||| (cp &&& 0x3F)]

/-- The cell scrub of `ttx_event_cb` (lines 166-169): control characters,
the soft hyphen and the mosaic private range become spaces. -/
def scrub (cp : Nat) : Nat :=
  if cp < 0x20 ∨ cp = 0xAD ∨ 0xEE00 ≤ cp then 0x20 else cp

/-- One lowercase hex digit of `snprintf "%04x"`. -/
def hexChar (d : Nat) : Nat := if d < 10 then 48 + d else 87 + d

/-- The escape of one input octet in `json_escape` (lines 104-117). -/
def escapeChar (c : Nat) : List Nat :=
  if c = 34 then [92, 34]
  else if c = 92 then [92, 92]
  else if c = 10 then [92, 110]
  else if c = 13 then [92, 114]
  else if c = 9 then [92, 116]
  else if c < 32 then [92, 117, 48, 48, hexChar (c / 16), hexChar (c % 16)]
  else [c]

/-- `json_escape` (lines 98-121): escape octets into `out` while the loop
guard `out < dst_size - 6` holds (`dst_size` = 512). -/
def json_escape : List Nat → List Nat → List Nat
  | [], out => out
  | c :: rest, out =>
    if out.length < 506 then json_escape rest (out ++ escapeChar c) else out

/-- Decimal digit string of a natural number, most significant first — the
model of `snprintf "%d"` on a non-negative int. -/
def natDigits (n : Nat) : List Nat :=
  if _h : n < 10 then [48 + n]
  else natDigits (n / 10) ++ [48 + n % 10]
termination_by n
decreasing_by exact Nat.div_lt_self (by omega) (by omega)

/-- The model of `snprintf "%d"` / `"%ld"` on an int value. -/
def fmtInt (i : Int) : List Nat :=
  if i < 0 then 45 :: natDigits i.natAbs else natDigits i.toNat

/-- A fetched page grid (`vbi_page`): row and column counts and the
row-major array of per-cell Unicode codepoints
(`page.text[row * columns + col].unicode`). -/
structure VbiPage where
  rows : Nat
  columns : Nat
  text : List Nat

/-- Modelled from the spec: the external fetch contract (spec §4.F-G) —
`fetch_page(P, page, subpage, 1.5, 25, true)` yields the 40×25 cell grid,
one Unicode codepoint per cell; the Teletext character repertoire lies in
the Basic Multilingual Plane and contains no UTF-16 surrogate values. -/
def WfPage (page : VbiPage) : Prop :=
  page.rows = 25 ∧ page.columns = 40 ∧
  ∀ cp ∈ page.text, ¬ (0xD800 ≤ cp ∧ cp < 0xE000)

/-- The inner column loop of `ttx_event_cb` (lines 161-173) for one row:
scrub each cell and append its UTF-8 encoding while the guard
`rlen < sizeof(row_utf8) - 4` (= 252) holds. -/
def build_row (page : VbiPage) (r : Nat) : List Nat :=
  (List.range page.columns).foldl
    (fun acc c =>
      let cp := scrub (page.text.getD (r * page.columns + c) 0)
      if acc.length < 252 then acc ++ utf8_encode cp else acc)
    []

/-- The trailing-space trim of lines 174-175. -/
def rtrimSpaces (l : List Nat) : List Nat :=
  (l.reverse.dropWhile (fun b => b == 32)).reverse

/- The JSON framing byte strings of the snprintf format
`(\x7b"page":%d,"subpage":%d,"ts":%ld,"lines":[` and `]\x7d\n`
(lines 154-156 and 194-195), written as ASCII octet lists. -/

/-- ASCII of the leading object framing up to the page number. -/
def hdrPage : List Nat := [123, 34, 112, 97, 103, 101, 34, 58]

/-- ASCII of the framing between page number and subpage number. -/
def hdrSubpage : List Nat := [44, 34, 115, 117, 98, 112, 97, 103, 101, 34, 58]

/-- ASCII of the framing between subpage number and timestamp. -/
def hdrTs : List Nat := [44, 34, 116, 115, 34, 58]

/-- ASCII of the framing between timestamp and the lines array. -/
def hdrLines : List Nat := [44, 34, 108, 105, 110, 101, 115, 34, 58, 91]

/-- ASCII of the closing bracket, brace and newline. -/
def tailBytes : List Nat := [93, 125, 10]

/-- The whole of `ttx_event_cb`'s serialisation (lines 148-200) on a
fetched grid: header via snprintf, then per row the comma, opening quote,
escaped row and closing quote — each append under the same bounds guards
as the C code (`sizeof(buf)` = 8192) — then the closing `]\x7d\n`.  The
result is the octet string handed to `udp_send`. -/
def serialize_page (pgno subno : Nat) (ts : Int) (page : VbiPage) : List Nat :=
  let buf0 := hdrPage ++ natDigits pgno ++ hdrSubpage ++ natDigits subno ++
    hdrTs ++ fmtInt ts ++ hdrLines
  let buf1 := (List.range page.rows).foldl
    (fun buf r =>
      let erow := json_escape (rtrimSpaces (build_row page r)) []
      let buf1 := if 0 < r ∧ buf.length < 8190 then buf ++ [44] else buf
      let buf2 := if buf1.length < 8188 then buf1 ++ [34] else buf1
      let buf3 := if buf2.length + erow.length < 8188 then buf2 ++ erow else buf2
      if buf3.length < 8190 then buf3 ++ [34] else buf3)
    buf0
  if buf1.length < 8188 then buf1 ++ tailBytes else buf1

/-- The 25 escaped row strings of a page, in row order — the contents of
the emitted `lines` array entries. -/
def pageEntries (page : VbiPage) : List (List Nat) :=
  (List.range page.rows).map
    (fun r => json_escape (rtrimSpaces (build_row page r)) [])

/-- The claim's literal datagram template
`(\x7b"page":P,"subpage":S,"ts":T,"lines":["r0",...,"r24"]\x7d` plus one
newline, stated from the spec's words as the comparison target for the
serialiser. -/
def quoteJoin : List (List Nat) → List Nat
  | [] => []
  | [e] => [34] ++ e ++ [34]
  | e :: es => [34] ++ e ++ [34] ++ [44] ++ quoteJoin es

/-- The literal form of the datagram from the claim. -/
def literal_datagram (pgno subno : Nat) (ts : Int)
    (entries : List (List Nat)) : List Nat :=
  hdrPage ++ natDigits pgno ++ hdrSubpage ++ natDigits subno ++
    hdrTs ++ fmtInt ts ++ hdrLines ++ quoteJoin entries ++ tailBytes

/- ================================================================
   UTF-8 well-formedness (RFC 3629 table) and a JSON syntax checker,
   used to state the "valid UTF-8" and "parses as JSON" parts of C4.
   ================================================================ -/

/-- An octet in an inclusive range. -/
def byteIn (lo hi b : Nat) : Bool := decide (lo ≤ b) && decide (b ≤ hi)

/-- A UTF-8 continuation octet. -/
def isCont (b : Nat) : Bool := byteIn 0x80 0xBF b

/-- RFC 3629 well-formedness of an octet string. -/
def utf8Valid : List Nat → Bool
  | [] => true
  | b :: rest =>
    if b < 0x80 then utf8Valid rest
    else if 0xC2 ≤ b ∧ b ≤ 0xDF then
      decide (1 ≤ rest.length) && isCont (rest.getD 0 0) && utf8Valid (rest.drop 1)
    else if b = 0xE0 then
      decide (2 ≤ rest.length) && byteIn 0xA0 0xBF (rest.getD 0 0) &&
        isCont (rest.getD 1 0) && utf8Valid (rest.drop 2)
    else if (0xE1 ≤ b ∧ b ≤ 0xEC) ∨ b = 0xEE ∨ b = 0xEF then
      decide (2 ≤ rest.length) && isCont (rest.getD 0 0) &&
        isCont (rest.getD 1 0) && utf8Valid (rest.drop 2)
    else if b = 0xED then
      decide (2 ≤ rest.length) && byteIn 0x80 0x9F (rest.getD 0 0) &&
        isCont (rest.getD 1 0) && utf8Valid (rest.drop 2)
    else if b = 0xF0 then
      decide (3 ≤ rest.length) && byteIn 0x90 0xBF (rest.getD 0 0) &&
        isCont (rest.getD 1 0) && isCont (rest.getD 2 0) && utf8Valid (rest.drop 3)
    else if 0xF1 ≤ b ∧ b ≤ 0xF3 then
      decide (3 ≤ rest.length) && isCont (rest.getD 0 0) &&
        isCont (rest.getD 1 0) && isCont (rest.getD 2 0) && utf8Valid (rest.drop 3)
    else if b = 0xF4 then
      decide (3 ≤ rest.length) && byteIn 0x80 0x8F (rest.getD 0 0) &&
        isCont (rest.getD 1 0) && isCont (rest.getD 2 0) && utf8Valid (rest.drop 3)
    else false
termination_by l => l.length
decreasing_by
  all_goals simp only [List.length_drop, List.length_cons]
  all_goals omega

/-- A decimal-digit octet. -/
def isDigitB (b : Nat) : Bool := decide (48 ≤ b) && decide (b ≤ 57)

/-- A hex-digit octet (JSON `\uXXXX`). -/
def isHexB (b : Nat) : Bool :=
  (decide (48 ≤ b) && decide (b ≤ 57)) || (decide (97 ≤ b) && decide (b ≤ 102)) ||
    (decide (65 ≤ b) && decide (b ≤ 70))

/-- JSON string-body scanner: consumes octets after the opening quote up
to and including the closing quote; escape sequences per RFC 8259, no raw
control octets, no raw quote or backslash. -/
def scanString : List Nat → Option (List Nat)
  | [] => none
  | b :: r =>
    if b = 34 then some r
    else if b = 92 then
      match r with
      | [] => none
      | e :: r2 =>
        if e = 34 ∨ e = 92 ∨ e = 47 ∨ e = 98 ∨ e = 102 ∨ e = 110 ∨ e = 114 ∨
            e = 116 then
          scanString r2
        else if e = 117 then
          match r2 with
          | h1 :: h2 :: h3 :: h4 :: r3 =>
            if isHexB h1 && isHexB h2 && isHexB h3 && isHexB h4 then scanString r3
            else none
          | _ => none
        else none
    else if 32 ≤ b then scanString r else none

/-- JSON integer scanner after an optional sign: `0` alone, or a nonzero
leading digit followed by digits. -/
def scanNumTail : List Nat → Option (List Nat)
  | [] => none
  | b :: r =>
    if b = 48 then some r
    else if 49 ≤ b ∧ b ≤ 57 then some (r.dropWhile isDigitB)
    else none

/-- JSON integer scanner (optional minus sign; fractions and exponents
are not emitted by the serialiser and are not accepted). -/
def scanNumber (l : List Nat) : Option (List Nat) :=
  match l with
  | [] => none
  | b :: r => if b = 45 then scanNumTail r else scanNumTail (b :: r)

mutual

/-- JSON value scanner (fuel-bounded): strings, integers, non-empty
arrays and non-empty objects — the forms the serialiser emits; no
whitespace (none is emitted). -/
def scanValue : Nat → List Nat → Option (List Nat)
  | 0, _ => none
  | fuel + 1, l =>
    match l with
    | [] => none
    | b :: r =>
      if b = 34 then scanString r
      else if b = 91 then
        match scanValue fuel r with
        | some r2 => scanArrayRest fuel r2
        | none => none
      else if b = 123 then
        match r with
        | [] => none
        | b2 :: r2 =>
          if b2 = 34 then
            match scanString r2 with
            | some r3 =>
              match r3 with
              | [] => none
              | b3 :: r4 =>
                if b3 = 58 then
                  match scanValue fuel r4 with
                  | some r5 => scanObjRest fuel r5
                  | none => none
                else none
            | none => none
          else none
      else scanNumber (b :: r)

/-- After one array element: `]` ends the array, `,` continues. -/
def scanArrayRest : Nat → List Nat → Option (List Nat)
  | 0, _ => none
  | fuel + 1, l =>
    match l with
    | [] => none
    | b :: r =>
      if b = 93 then some r
      else if b = 44 then
        match scanValue fuel r with
        | some r2 => scanArrayRest fuel r2
        | none => none
      else none

/-- After one object member: `\x7d` ends the object, `,` continues with
another `"key":value` member. -/
def scanObjRest : Nat → List Nat → Option (List Nat)
  | 0, _ => none
  | fuel + 1, l =>
    match l with
    | [] => none
    | b :: r =>
      if b = 125 then some r
      else if b = 44 then
        match r with
        | [] => none
        | b2 :: r2 =>
          if b2 = 34 then
            match scanString r2 with
            | some r3 =>
              match r3 with
              | [] => none
              | b3 :: r4 =>
                if b3 = 58 then
                  match scanValue fuel r4 with
                  | some r5 => scanObjRest fuel r5
                  | none => none
                else none
            | none => none
          else none
      else none

end

/-- Goodness of a scrubbed cell codepoint: printable (at least 0x20),
below the mosaic range, not a UTF-16 surrogate. -/
def GoodCp (cp : Nat) : Prop :=
  0x20 ≤ cp ∧ cp < 0xEE00 ∧ ¬ (0xD800 ≤ cp ∧ cp < 0xE000)

/-- The scrubbed codepoints of one row of a 40-column grid. -/
def rowCps (page : VbiPage) (r : Nat) : List Nat :=
  (List.range 40).map (fun c => scrub (page.text.getD (r * 40 + c) 0))

/-- Remove trailing 32s from a codepoint list (the codepoint-level view
of the trailing-space trim). -/
def dropTrailing32 (l : List Nat) : List Nat :=
  (l.reverse.dropWhile (fun b => b == 32)).reverse

/-- An octet string that a JSON string scan consumes exactly, leaving
whatever follows the closing quote. -/
def ScanOk (e : List Nat) : Prop :=
  ∀ rest, scanString (e ++ 34 :: rest) = some rest

/- ****************************************************************
   END OF DEFINITIONS — THEOREMS FOLLOW
   **************************************************************** -/

/- ================================================================
   Lemmas about the framer
   ================================================================ -/

theorem emitBlocks_of_lt {s : List Nat} (h : s.length < 188) :
    emitBlocks s = ([], s) := by
  rw [emitBlocks]
  simp [Nat.not_le.mpr h]

theorem emitBlocks_of_le {s : List Nat} (h : 188 ≤ s.length) :
    emitBlocks s = ((s.take 188) :: (emitBlocks (s.drop 188)).1,
                    (emitBlocks (s.drop 188)).2) := by
  rw [emitBlocks]
  simp [h]

/-- The leftover of the packet cutter is always shorter than one packet. -/
theorem emitBlocks_rem_lt (s : List Nat) : (emitBlocks s).2.length < 188 := by
  by_cases h : 188 ≤ s.length
  · rw [emitBlocks_of_le h]
    exact emitBlocks_rem_lt (s.drop 188)
  · rw [emitBlocks_of_lt (by omega)]
    show s.length < 188
    omega
termination_by s.length
decreasing_by simp only [List.length_drop]; omega

/-- Cutting a concatenation: first cut the head, then continue with the
head's leftover glued to the tail. -/
theorem emitBlocks_append (s t : List Nat) :
    emitBlocks (s ++ t) =
      ((emitBlocks s).1 ++ (emitBlocks ((emitBlocks s).2 ++ t)).1,
       (emitBlocks ((emitBlocks s).2 ++ t)).2) := by
  by_cases h : 188 ≤ s.length
  · have htake : (s ++ t).take 188 = s.take 188 := List.take_append_of_le_length h
    have hdrop : (s ++ t).drop 188 = s.drop 188 ++ t := List.drop_append_of_le_length h
    rw [emitBlocks_of_le (by simp only [List.length_append]; omega),
        emitBlocks_of_le h, htake, hdrop]
    have ih := emitBlocks_append (s.drop 188) t
    rw [ih]
    simp
  · rw [emitBlocks_of_lt (s := s) (by omega)]
    simp
termination_by s.length
decreasing_by simp only [List.length_drop]; omega

/-- One write callback behaves exactly like gluing the carry in front of
the chunk and cutting packets off the front. -/
theorem curl_write_cb_eq (c chunk : List Nat) (hc : c.length < 188) :
    curl_write_cb ⟨c⟩ chunk =
      ((emitBlocks (c ++ chunk)).1, ⟨(emitBlocks (c ++ chunk)).2⟩) := by
  unfold curl_write_cb
  by_cases h0 : 0 < c.length
  · simp only [h0, if_true]
    by_cases hfill : chunk.length < 188 - c.length
    · have htk : min chunk.length (188 - c.length) = chunk.length := by omega
      have hlen : (c ++ chunk.take (min chunk.length (188 - c.length))).length ≠ 188 := by
        simp only [List.length_append, List.length_take]
        omega
      simp only [hlen, if_false]
      rw [emitBlocks_of_lt (by simp only [List.length_append]; omega)]
      simp [htk]
    · have htk : min chunk.length (188 - c.length) = 188 - c.length := by omega
      have hlen : (c ++ chunk.take (min chunk.length (188 - c.length))).length = 188 := by
        simp only [List.length_append, List.length_take]
        omega
      simp only [hlen, if_true]
      rw [emitBlocks_of_le (s := c ++ chunk) (by simp only [List.length_append]; omega)]
      have htake : (c ++ chunk).take 188 = c ++ chunk.take (188 - c.length) := by
        rw [List.take_append_eq_append_take]
        congr 1
        exact List.take_of_length_le (by omega)
      have hdrop : (c ++ chunk).drop 188 = chunk.drop (188 - c.length) := by
        rw [List.drop_append_eq_append_drop, List.drop_of_length_le (by omega),
            List.nil_append]
      rw [htake, hdrop, htk]
  · have hc0 : c = [] := by
      cases c with
      | nil => rfl
      | cons a l => simp at h0
    simp [hc0, h0]

/-- Feeding chunks one at a time from a carry state is the same as cutting
the carry glued to the whole concatenation. -/
theorem feedAll_eq (cs : List (List Nat)) (c : List Nat) (hc : c.length < 188) :
    feedAll ⟨c⟩ cs =
      ((emitBlocks (c ++ cs.flatten)).1, ⟨(emitBlocks (c ++ cs.flatten)).2⟩) := by
  induction cs generalizing c with
  | nil =>
    simp only [feedAll, List.flatten_nil, List.append_nil]
    rw [emitBlocks_of_lt hc]
  | cons chunk cs ih =>
    simp only [feedAll]
    rw [curl_write_cb_eq c chunk hc]
    rw [ih _ (emitBlocks_rem_lt (c ++ chunk))]
    rw [List.flatten_cons, ← List.append_assoc]
    rw [emitBlocks_append (c ++ chunk) cs.flatten]

/-- All packets cut from a stream are 188 octets, and on a stream that is a
whole number of packets they concatenate back to the stream with nothing
left over. -/
theorem emitBlocks_exact (s : List Nat) (h : s.length % 188 = 0) :
    (emitBlocks s).1.flatten = s ∧ (emitBlocks s).2 = [] ∧
      ∀ p ∈ (emitBlocks s).1, p.length = 188 := by
  by_cases hle : 188 ≤ s.length
  · rw [emitBlocks_of_le hle]
    have hdl : (s.drop 188).length % 188 = 0 := by
      simp only [List.length_drop]
      omega
    have ih := emitBlocks_exact (s.drop 188) hdl
    refine ⟨?_, ih.2.1, ?_⟩
    · simp only [List.flatten_cons, ih.1]
      exact List.take_append_drop 188 s
    · intro p hp
      rcases List.mem_cons.mp hp with rfl | hp
      · simp only [List.length_take]
        omega
      · exact ih.2.2 p hp
  · have : s.length = 0 := by omega
    have hs : s = [] := List.eq_nil_of_length_eq_zero this
    subst hs
    rw [emitBlocks_of_lt (by simp)]
    simp
termination_by s.length
decreasing_by simp only [List.length_drop]; omega

/-- C1 (confirmed).  Chunking invariance of the TS framer: for every
sequence of byte chunks whose concatenation is an aligned TS stream (a
whole number of 188-octet packets, starting on a packet boundary, i.e.
from the cleared carry state), feeding the chunks one at a time through
`curl_write_cb` invokes `process_ts_packet` on exactly the consecutive
188-octet blocks of the concatenated stream, in order; the carry buffer is
empty afterwards.  Since the emitted sequence depends only on the
concatenation, it is the same for every way of splitting the stream into
chunks. -/
theorem C1_framer_chunking (cs : List (List Nat))
    (h : cs.flatten.length % 188 = 0) :
    (feedAll framerInit cs).1 = (emitBlocks cs.flatten).1 ∧
    (feedAll framerInit cs).2 = framerInit ∧
    (emitBlocks cs.flatten).1.flatten = cs.flatten ∧
    ∀ p ∈ (emitBlocks cs.flatten).1, p.length = 188 := by
  unfold framerInit
  have hfe := feedAll_eq cs [] (by simp)
  have hex := emitBlocks_exact cs.flatten h
  simp only [List.nil_append] at hfe
  refine ⟨by rw [hfe], ?_, hex.1, hex.2.2⟩
  rw [hfe, hex.2.1]

set_option maxRecDepth 40000 in
/-- Witness for C1: a 188-octet stream delivered as a 100-octet chunk
followed by an 88-octet chunk. -/
theorem C1_framer_chunking_witness :
    ((List.replicate 100 (71 : Nat)) :: [List.replicate 88 (0 : Nat)]).flatten.length % 188 = 0 ∧
    ((feedAll framerInit ((List.replicate 100 (71 : Nat)) :: [List.replicate 88 (0 : Nat)])).1 =
        (emitBlocks ((List.replicate 100 (71 : Nat)) :: [List.replicate 88 (0 : Nat)]).flatten).1 ∧
      (feedAll framerInit ((List.replicate 100 (71 : Nat)) :: [List.replicate 88 (0 : Nat)])).2 = framerInit ∧
      (emitBlocks ((List.replicate 100 (71 : Nat)) :: [List.replicate 88 (0 : Nat)]).flatten).1.flatten =
        ((List.replicate 100 (71 : Nat)) :: [List.replicate 88 (0 : Nat)]).flatten ∧
      ∀ p ∈ (emitBlocks ((List.replicate 100 (71 : Nat)) :: [List.replicate 88 (0 : Nat)]).flatten).1,
        p.length = 188) :=
  ⟨by simp, C1_framer_chunking _ (by simp)⟩

/- ================================================================
   Lemmas about the TS filter and PES reassembler
   ================================================================ -/

/-- An accepted 188-octet packet has a payload of 1..184 octets. -/
theorem ts_filter_payload_bounds (pid : Nat) (pkt : List Nat) (pus : Bool)
    (payload : List Nat) (hf : ts_filter pid pkt = some (pus, payload))
    (hlen : pkt.length = 188) :
    1 ≤ payload.length ∧ payload.length ≤ 184 := by
  simp only [ts_filter] at hf
  split_ifs at hf with h1 h2 h3 h4 h5 h6 h7 <;>
      (injection hf with hf'
       rw [Prod.mk.injEq] at hf'
       obtain ⟨-, hpl⟩ := hf'
       subst hpl
       simp only [List.length_drop, hlen] at *
       omega)

/-- C3 (confirmed).  PES header parsing: a dispatched accumulator content
is forwarded to the VBI bridge iff its length is at least 9, it starts
with 00 00 01, and 9 + byte 8 is below its length; in that case exactly
the slice from 9 + byte 8 to the end is forwarded, otherwise the content
is dropped. -/
theorem C3_dispatch_pes_slice (pes : List Nat) :
    (∀ out, dispatch_pes pes = some out ↔
      (9 ≤ pes.length ∧ pes.getD 0 0 = 0x00 ∧ pes.getD 1 0 = 0x00 ∧
        pes.getD 2 0 = 0x01 ∧ 9 + pes.getD 8 0 < pes.length ∧
        out = pes.drop (9 + pes.getD 8 0))) ∧
    (dispatch_pes pes = none ↔
      ¬ (9 ≤ pes.length ∧ pes.getD 0 0 = 0x00 ∧ pes.getD 1 0 = 0x00 ∧
          pes.getD 2 0 = 0x01 ∧ 9 + pes.getD 8 0 < pes.length)) := by
  simp only [dispatch_pes]
  split_ifs with h1 h2 h3
  · refine ⟨fun out => ⟨fun hco => absurd hco (by simp), fun hco => absurd hco.1 (by omega)⟩,
      ⟨fun _ hco => absurd hco.1 (by omega), fun _ => rfl⟩⟩
  · refine ⟨fun out => ⟨fun hco => absurd hco (by simp), fun hco => ?_⟩,
      ⟨fun _ hco => ?_, fun _ => rfl⟩⟩
    · rcases h2 with h | h | h
      · exact absurd hco.2.1 h
      · exact absurd hco.2.2.1 h
      · exact absurd hco.2.2.2.1 h
    · rcases h2 with h | h | h
      · exact absurd hco.2.1 h
      · exact absurd hco.2.2.1 h
      · exact absurd hco.2.2.2.1 h
  · refine ⟨fun out => ⟨fun hco => absurd hco (by simp),
        fun hco => absurd hco.2.2.2.2.1 (by omega)⟩,
      ⟨fun _ hco => absurd hco.2.2.2.2 (by omega), fun _ => rfl⟩⟩
  · push_neg at h2
    refine ⟨fun out => ⟨fun hco => ?_, fun hco => ?_⟩, ⟨fun hco => ?_, fun hco => ?_⟩⟩
    · injection hco with hco'
      exact ⟨by omega, h2.1, h2.2.1, h2.2.2, by omega, hco'.symm⟩
    · rw [hco.2.2.2.2.2]
    · exact absurd hco (by simp)
    · exact absurd ⟨by omega, h2.1, h2.2.1, h2.2.2, by omega⟩ hco

/-- C5 (confirmed).  Frame effect of dropped TS packets: a packet with a
wrong sync byte, the transport-error bit set, a non-matching PID, the
payload-present flag clear, or a computed payload offset of at least 188
leaves the PES accumulator completely unchanged — no append, no dispatch,
no reset, no diagnostic. -/
theorem C5_dropped_packet_no_effect (pid : Nat) (st : PesState) (pkt : List Nat)
    (h : pkt.getD 0 0 ≠ 0x47 ∨ pkt.getD 1 0 &&& 0x80 ≠ 0 ∨
         ((pkt.getD 1 0 &&& 0x1F) <<< 8 ||| pkt.getD 2 0) ≠ pid ∨
         pkt.getD 3 0 &&& 0x10 = 0 ∨
         188 ≤ (if pkt.getD 3 0 &&& 0x20 ≠ 0 then 5 + pkt.getD 4 0 else 4)) :
    process_ts_packet pid st pkt = ⟨st, [], false⟩ := by
  have hnone : ts_filter pid pkt = none := by
    simp only [ts_filter]
    split_ifs with h1 h2 h3 h4 h5 h6 h7 <;> try rfl
    all_goals
      exfalso
      rcases h with h | h | h | h | h <;> simp_all <;> omega
  unfold process_ts_packet
  rw [hnone]

set_option maxRecDepth 40000 in
/-- Witness for C5: a packet of zero bytes fails the sync check and is
dropped with no effect on a non-trivial accumulator state. -/
theorem C5_dropped_packet_no_effect_witness :
    ((pktBad.getD 0 0 ≠ 0x47 ∨ pktBad.getD 1 0 &&& 0x80 ≠ 0 ∨
        ((pktBad.getD 1 0 &&& 0x1F) <<< 8 ||| pktBad.getD 2 0) ≠ 0x100 ∨
        pktBad.getD 3 0 &&& 0x10 = 0 ∨
        188 ≤ (if pktBad.getD 3 0 &&& 0x20 ≠ 0 then 5 + pktBad.getD 4 0 else 4)) ∧
      process_ts_packet 0x100 ⟨[1, 2, 3], 42⟩ pktBad = ⟨⟨[1, 2, 3], 42⟩, [], false⟩) :=
  ⟨by decide, C5_dropped_packet_no_effect 0x100 ⟨[1, 2, 3], 42⟩ pktBad (by decide)⟩

/-- C10 (confirmed).  Implicit accumulator invariant: one call of
`process_ts_packet` on any 188-octet input, from any state with length at
most 65548 and (for bounded accumulations) length strictly below target,
returns a state satisfying the same bounds; hence the accumulator index
never exceeds the 65548-octet buffer and every payload copy stays within
bounds. -/
theorem C10_accumulator_invariant (pid : Nat) (st : PesState) (pkt : List Nat)
    (hlen : pkt.length = 188) (hinv : PesInv st) :
    PesInv (process_ts_packet pid st pkt).st := by
  cases hf : ts_filter pid pkt with
  | none =>
    simp only [process_ts_packet, hf]
    exact hinv
  | some pp =>
    obtain ⟨pus, payload⟩ := pp
    simp only [process_ts_packet, hf, pes_step]
    unfold PesInv at hinv ⊢
    split_ifs <;> simp_all [List.length_append]

set_option maxRecDepth 40000 in
/-- Witness for C10: the invariant is preserved from the reset state on a
concrete PUSI packet. -/
theorem C10_accumulator_invariant_witness :
    pktPusi.length = 188 ∧ PesInv pes_init ∧
      PesInv (process_ts_packet 0x100 pes_init pktPusi).st :=
  ⟨by decide, by simp [PesInv, pes_init],
    C10_accumulator_invariant 0x100 pes_init pktPusi (by decide)
      (by simp [PesInv, pes_init])⟩

/-- Unfolding of `pes_step` for a continuation packet (PUSI clear). -/
theorem pes_step_false_eq (st : PesState) (payload : List Nat) :
    pes_step st false payload =
      if st.pes.length + payload.length ≤ 65548 then
        if 0 < st.target ∧ st.target ≤ st.pes.length + payload.length then
          ⟨⟨[], 0⟩, [st.pes ++ payload], false⟩
        else ⟨⟨st.pes ++ payload, st.target⟩, [], false⟩
      else ⟨⟨[], 0⟩, [], true⟩ := by
  simp [pes_step]

/-- Unfolding of `pes_step` for a PUSI packet. -/
theorem pes_step_true_eq (st : PesState) (payload : List Nat) :
    pes_step st true payload =
      if payload.length ≤ 65548 then
        if 0 < (if 6 ≤ payload.length then
                  if 0 < ((payload.getD 4 0) <<< 8 ||| payload.getD 5 0) then
                    6 + ((payload.getD 4 0) <<< 8 ||| payload.getD 5 0)
                  else 0
                else 0) ∧
            (if 6 ≤ payload.length then
              if 0 < ((payload.getD 4 0) <<< 8 ||| payload.getD 5 0) then
                6 + ((payload.getD 4 0) <<< 8 ||| payload.getD 5 0)
              else 0
            else 0) ≤ payload.length then
          ⟨⟨[], 0⟩, (if 0 < st.pes.length then [st.pes] else []) ++ [payload], false⟩
        else
          ⟨⟨payload,
              (if 6 ≤ payload.length then
                if 0 < ((payload.getD 4 0) <<< 8 ||| payload.getD 5 0) then
                  6 + ((payload.getD 4 0) <<< 8 ||| payload.getD 5 0)
                else 0
              else 0)⟩,
            (if 0 < st.pes.length then [st.pes] else []), false⟩
      else ⟨⟨[], 0⟩, (if 0 < st.pes.length then [st.pes] else []), true⟩ := by
  simp [pes_step]

/-- C2 (confirmed).  PES dispatch timing, per `process_ts_packet` call on
an accepted target-PID packet: with a bounded target (set to `6 + L` by
the PUSI packet when the PES length field `L` read from payload bytes 4..5
is positive) the accumulator is dispatched exactly at the append that
makes its length reach the target — including within the PUSI call itself
— and not before; with `L = 0` (unbounded) no append ever dispatches, and
the pending accumulation is dispatched only by the next PUSI packet, and
only if its length is positive at that moment. -/
theorem C2_pes_dispatch_timing (pid : Nat) (st : PesState) (pkt : List Nat)
    (hlen : pkt.length = 188) (pus : Bool) (payload : List Nat)
    (hf : ts_filter pid pkt = some (pus, payload)) :
    ((pus = false ∧ 0 < st.target ∧ st.target ≤ st.pes.length + payload.length ∧
        st.pes.length + payload.length ≤ 65548) →
      (pes_step st pus payload).dispatched = [st.pes ++ payload] ∧
        (pes_step st pus payload).st = ⟨[], 0⟩) ∧
    ((pus = false ∧ 0 < st.target ∧ st.pes.length + payload.length < st.target ∧
        st.pes.length + payload.length ≤ 65548) →
      (pes_step st pus payload).dispatched = [] ∧
        (pes_step st pus payload).st = ⟨st.pes ++ payload, st.target⟩) ∧
    ((pus = false ∧ st.target = 0 ∧ st.pes.length + payload.length ≤ 65548) →
      (pes_step st pus payload).dispatched = [] ∧
        (pes_step st pus payload).st = ⟨st.pes ++ payload, 0⟩) ∧
    ((pus = true ∧ 6 ≤ payload.length ∧
        0 < ((payload.getD 4 0) <<< 8 ||| payload.getD 5 0) ∧
        payload.length < 6 + ((payload.getD 4 0) <<< 8 ||| payload.getD 5 0)) →
      (pes_step st pus payload).st =
          ⟨payload, 6 + ((payload.getD 4 0) <<< 8 ||| payload.getD 5 0)⟩ ∧
        (pes_step st pus payload).dispatched =
          (if 0 < st.pes.length then [st.pes] else [])) ∧
    ((pus = true ∧ 6 ≤ payload.length ∧
        0 < ((payload.getD 4 0) <<< 8 ||| payload.getD 5 0) ∧
        6 + ((payload.getD 4 0) <<< 8 ||| payload.getD 5 0) ≤ payload.length) →
      (pes_step st pus payload).st = ⟨[], 0⟩ ∧
        (pes_step st pus payload).dispatched =
          (if 0 < st.pes.length then [st.pes] else []) ++ [payload]) ∧
    ((pus = true ∧ 6 ≤ payload.length ∧
        ((payload.getD 4 0) <<< 8 ||| payload.getD 5 0) = 0) →
      (pes_step st pus payload).st = ⟨payload, 0⟩ ∧
        (pes_step st pus payload).dispatched =
          (if 0 < st.pes.length then [st.pes] else [])) := by
  have hpl := ts_filter_payload_bounds pid pkt pus payload hf hlen
  refine ⟨?_, ?_, ?_, ?_, ?_, ?_⟩
  · rintro ⟨rfl, ht, hge, hle⟩
    rw [pes_step_false_eq, if_pos hle, if_pos ⟨ht, hge⟩]
    exact ⟨rfl, rfl⟩
  · rintro ⟨rfl, ht, hlt, hle⟩
    rw [pes_step_false_eq, if_pos hle, if_neg (by omega)]
    exact ⟨rfl, rfl⟩
  · rintro ⟨rfl, ht, hle⟩
    rw [pes_step_false_eq, if_pos hle, if_neg (by omega), ht]
    exact ⟨rfl, rfl⟩
  · rintro ⟨rfl, h6, hL, hsmall⟩
    rw [pes_step_true_eq, if_pos (by omega : payload.length ≤ 65548),
        if_pos h6, if_pos hL,
        if_neg (show ¬ (0 < 6 + ((payload.getD 4 0) <<< 8 ||| payload.getD 5 0) ∧
          6 + ((payload.getD 4 0) <<< 8 ||| payload.getD 5 0) ≤ payload.length) by omega)]
    exact ⟨rfl, rfl⟩
  · rintro ⟨rfl, h6, hL, hbig⟩
    rw [pes_step_true_eq, if_pos (by omega : payload.length ≤ 65548),
        if_pos h6, if_pos hL,
        if_pos (show 0 < 6 + ((payload.getD 4 0) <<< 8 ||| payload.getD 5 0) ∧
          6 + ((payload.getD 4 0) <<< 8 ||| payload.getD 5 0) ≤ payload.length
          from ⟨by omega, hbig⟩)]
    exact ⟨rfl, rfl⟩
  · rintro ⟨rfl, h6, hL⟩
    rw [pes_step_true_eq, if_pos (by omega : payload.length ≤ 65548),
        if_pos h6,
        if_neg (show ¬ (0 < ((payload.getD 4 0) <<< 8 ||| payload.getD 5 0)) by omega),
        if_neg (show ¬ (0 < (0 : Nat) ∧ (0 : Nat) ≤ payload.length) by omega)]
    exact ⟨rfl, rfl⟩

set_option maxRecDepth 40000 in
/-- Witness for C2: the conjunction instantiated at a concrete PUSI packet
(`PES_packet_length` 20) from the reset state. -/
theorem C2_pes_dispatch_timing_witness :
    pktPusi.length = 188 ∧
    ts_filter 0x100 pktPusi = some (true, pktPusi.drop 4) ∧
    (((true = false ∧ 0 < pes_init.target ∧
        pes_init.target ≤ pes_init.pes.length + (pktPusi.drop 4).length ∧
        pes_init.pes.length + (pktPusi.drop 4).length ≤ 65548) →
      (pes_step pes_init true (pktPusi.drop 4)).dispatched =
          [pes_init.pes ++ pktPusi.drop 4] ∧
        (pes_step pes_init true (pktPusi.drop 4)).st = ⟨[], 0⟩) ∧
    ((true = false ∧ 0 < pes_init.target ∧
        pes_init.pes.length + (pktPusi.drop 4).length < pes_init.target ∧
        pes_init.pes.length + (pktPusi.drop 4).length ≤ 65548) →
      (pes_step pes_init true (pktPusi.drop 4)).dispatched = [] ∧
        (pes_step pes_init true (pktPusi.drop 4)).st =
          ⟨pes_init.pes ++ pktPusi.drop 4, pes_init.target⟩) ∧
    ((true = false ∧ pes_init.target = 0 ∧
        pes_init.pes.length + (pktPusi.drop 4).length ≤ 65548) →
      (pes_step pes_init true (pktPusi.drop 4)).dispatched = [] ∧
        (pes_step pes_init true (pktPusi.drop 4)).st =
          ⟨pes_init.pes ++ pktPusi.drop 4, 0⟩) ∧
    ((true = true ∧ 6 ≤ (pktPusi.drop 4).length ∧
        0 < (((pktPusi.drop 4).getD 4 0) <<< 8 ||| (pktPusi.drop 4).getD 5 0) ∧
        (pktPusi.drop 4).length <
          6 + (((pktPusi.drop 4).getD 4 0) <<< 8 ||| (pktPusi.drop 4).getD 5 0)) →
      (pes_step pes_init true (pktPusi.drop 4)).st =
          ⟨pktPusi.drop 4,
            6 + (((pktPusi.drop 4).getD 4 0) <<< 8 ||| (pktPusi.drop 4).getD 5 0)⟩ ∧
        (pes_step pes_init true (pktPusi.drop 4)).dispatched =
          (if 0 < pes_init.pes.length then [pes_init.pes] else [])) ∧
    ((true = true ∧ 6 ≤ (pktPusi.drop 4).length ∧
        0 < (((pktPusi.drop 4).getD 4 0) <<< 8 ||| (pktPusi.drop 4).getD 5 0) ∧
        6 + (((pktPusi.drop 4).getD 4 0) <<< 8 ||| (pktPusi.drop 4).getD 5 0) ≤
          (pktPusi.drop 4).length) →
      (pes_step pes_init true (pktPusi.drop 4)).st = ⟨[], 0⟩ ∧
        (pes_step pes_init true (pktPusi.drop 4)).dispatched =
          (if 0 < pes_init.pes.length then [pes_init.pes] else []) ++ [pktPusi.drop 4]) ∧
    ((true = true ∧ 6 ≤ (pktPusi.drop 4).length ∧
        (((pktPusi.drop 4).getD 4 0) <<< 8 ||| (pktPusi.drop 4).getD 5 0) = 0) →
      (pes_step pes_init true (pktPusi.drop 4)).st = ⟨pktPusi.drop 4, 0⟩ ∧
        (pes_step pes_init true (pktPusi.drop 4)).dispatched =
          (if 0 < pes_init.pes.length then [pes_init.pes] else []))) :=
  ⟨by decide, by decide,
    C2_pes_dispatch_timing 0x100 pes_init pktPusi (by decide) true (pktPusi.drop 4)
      (by decide)⟩

/-- C6 (corrected: the code logs the overflow and resets, but maintains no
counter of drops).  Accumulator overflow handling: whenever appending an
accepted packet's payload would push the accumulator length past 65548,
the overflow diagnostic is logged, length and target are reset to 0, and
the packet's payload is discarded with no partial dispatch — no byte of
the over-full accumulation reaches the PES header parser (only a PUSI
packet's pre-existing pending accumulation, dispatched before the length
was read, can appear, and a PUSI packet can in fact never overflow). -/
theorem C6_overflow_amended (pid : Nat) (st : PesState) (pkt : List Nat)
    (pus : Bool) (payload : List Nat)
    (hf : ts_filter pid pkt = some (pus, payload))
    (hov : 65548 < (if pus = true then 0 else st.pes.length) + payload.length) :
    process_ts_packet pid st pkt =
      ⟨⟨[], 0⟩, if pus = true ∧ 0 < st.pes.length then [st.pes] else [], true⟩ := by
  simp only [process_ts_packet, hf]
  cases pus
  · simp at hov
    rw [pes_step_false_eq, if_neg (by omega)]
    simp
  · simp at hov
    rw [pes_step_true_eq, if_neg (by omega)]
    simp

/-- An appended payload that would overflow the buffer on a continuation
packet: logged, reset, nothing dispatched. -/
theorem pes_step_overflow_false (st : PesState) (payload : List Nat)
    (h : ¬ (st.pes.length + payload.length ≤ 65548)) :
    pes_step st false payload = ⟨⟨[], 0⟩, [], true⟩ := by
  rw [pes_step_false_eq, if_neg h]

set_option maxRecDepth 40000 in
/-- Witness for C6 (amended): a continuation packet appended to a 65547-
octet accumulation overflows; the packet is dropped, the state reset, the
diagnostic logged, nothing dispatched. -/
theorem C6_overflow_amended_witness :
    ts_filter 0x100 pktCont = some (false, List.replicate 184 0xFF) ∧
    (65548 < (if (false : Bool) = true then 0
        else (⟨List.replicate 65547 0, 0⟩ : PesState).pes.length) +
      (List.replicate 184 (0xFF : Nat)).length) ∧
    process_ts_packet 0x100 ⟨List.replicate 65547 0, 0⟩ pktCont =
      ⟨⟨[], 0⟩,
        (if (false : Bool) = true ∧
            0 < (⟨List.replicate 65547 0, 0⟩ : PesState).pes.length then
          [(⟨List.replicate 65547 0, 0⟩ : PesState).pes] else []), true⟩ := by
  have e1 : (⟨List.replicate 65547 0, 0⟩ : PesState).pes.length = 65547 := by
    simp only [List.length_replicate]
  have e2 : (List.replicate 184 (0xFF : Nat)).length = 184 := by
    simp only [List.length_replicate]
  have hov : 65548 < (if (false : Bool) = true then 0
      else (⟨List.replicate 65547 0, 0⟩ : PesState).pes.length) +
      (List.replicate 184 (0xFF : Nat)).length := by
    rw [e1, e2]
    norm_num
  exact ⟨by decide, hov,
    C6_overflow_amended 0x100 ⟨List.replicate 65547 0, 0⟩ pktCont false
      (List.replicate 184 0xFF) (by decide) hov⟩

set_option maxRecDepth 40000 in
/-- C6 counterexample to the claim as stated: the claim additionally
asserts that "a counter of drops is incremented", but the program keeps no
such counter.  After the overflow drop the complete mutable reassembler
state equals `pes_init`, the state at program start — a program that had
incremented a drop counter would have to differ from the pristine state,
so no component of the program records the number of drops; the only
observable effect besides the reset is the log line (`overflow = true`). -/
theorem C6_counterexample :
    (process_ts_packet 0x100 ⟨List.replicate 65547 0, 0⟩ pktCont).st = pes_init ∧
    (process_ts_packet 0x100 ⟨List.replicate 65547 0, 0⟩ pktCont).overflow = true ∧
    (process_ts_packet 0x100 ⟨List.replicate 65547 0, 0⟩ pktCont).dispatched = [] := by
  have hf : ts_filter 0x100 pktCont = some (false, List.replicate 184 0xFF) := by decide
  have hov : ¬ ((⟨List.replicate 65547 0, 0⟩ : PesState).pes.length +
      (List.replicate 184 (0xFF : Nat)).length ≤ 65548) := by
    intro hle
    have e1 : (⟨List.replicate 65547 0, 0⟩ : PesState).pes.length = 65547 := by
      simp only [List.length_replicate]
    have e2 : (List.replicate 184 (0xFF : Nat)).length = 184 := by
      simp only [List.length_replicate]
    rw [e1, e2] at hle
    omega
  have hstep := pes_step_overflow_false ⟨List.replicate 65547 0, 0⟩
    (List.replicate 184 0xFF) hov
  simp only [process_ts_packet, hf, hstep]
  simp [pes_init]

/- ================================================================
   C7 — the feed-loop spin guard (code bug)
   ================================================================ -/

/-- C7 (code bug).  The spin guard of `feed_pes_data` is written as
`lines == 0 && rem == (p - data + rem)`, which — since `p - data + rem`
always equals the original length — only fires when *no byte has been
consumed since the loop started*, not when a single call makes no
progress (the claim, the code's own comment, and the spec all describe a
per-call guard).  Consequence: for the demux behaviour `oSpin`, which
satisfies the claim's premise (every call either consumes at least one
byte or returns 0 lines), the loop never terminates: with a 2-byte
payload, call 0 consumes one byte, every later call returns 0 lines
consuming nothing, the cumulative consumption stays 1 ≠ 0, and the break
never fires while `rem = 1 > 0`. -/
theorem C7_feed_loop_spins :
    (∀ i, (oSpin i).1 = 0 ∨ 1 ≤ (oSpin i).2) ∧
    ∀ fuel, feed_pes_loop oSpin 2 fuel 0 0 = none := by
  constructor
  · intro i
    left
    unfold oSpin
    split_ifs <;> rfl
  · have haux : ∀ f i, feed_pes_loop oSpin 2 f (i + 1) 1 = none := by
      intro f
      induction f with
      | zero => intro i; rfl
      | succ f ih =>
        intro i
        have ho : oSpin (i + 1) = (0, 0) := by
          unfold oSpin
          rw [if_neg (by omega)]
        simp only [feed_pes_loop, ho]
        norm_num
        exact ih (i + 1)
    intro fuel
    cases fuel with
    | zero => rfl
    | succ f =>
      have ho : oSpin 0 = (0, 1) := rfl
      simp only [feed_pes_loop, ho]
      norm_num
      exact haux f 0

/- ================================================================
   C8, C9 — startup validation and exit codes
   ================================================================ -/

/-- C8 counterexample to the claim as stated: the claim requires every PID
above 8190 to be rejected as a configuration error, but the code's test
`g_pid <= 0 || g_pid > 8191` accepts PID 8191 — validation succeeds where
the claim demands failure. -/
theorem C8_counterexample : main_validate 5 8191 5555 = true := by decide

/-- C8 (corrected: the accepted PID range is 1..8191, not 1..8190).
Startup validation: the process exits with a non-zero code before opening
any socket (`main_validate = false` is the paths that return 1 before
`socket()`) unless there are exactly four positional parameters with the
parsed PID in 1..8191 and the UDP port in 1..65535; equivalently, either
validation passes, or the modelled `main` exits with code 1. -/
theorem C8_validation (argc : Nat) (pid udp_port : Int)
    (socket_ok zvbi0_ok curl_ok : Bool) (zvbi running : Nat → Bool) (fuel : Nat) :
    (main_validate argc pid udp_port = true ↔
      (argc = 5 ∧ 1 ≤ pid ∧ pid ≤ 8191 ∧ 1 ≤ udp_port ∧ udp_port ≤ 65535)) ∧
    (main_validate argc pid udp_port = true ∨
      main_exit argc pid udp_port socket_ok zvbi0_ok curl_ok zvbi running fuel =
        some 1) := by
  constructor
  · unfold main_validate
    split_ifs with h1 h2 h3 <;>
      constructor <;> intro h <;> first | omega | rfl | exact absurd h (by simp)
  · by_cases hv : main_validate argc pid udp_port = true
    · exact Or.inl hv
    · refine Or.inr ?_
      unfold main_exit
      rw [if_pos (by simp at hv; exact hv)]

/-- Helper for C9: every exit of the reconnect loop (exit code 0) is
caused by the running flag being observed false — a signal — or by a
`zvbi_init` failure inside the loop. -/
theorem main_loop_exit_zero (zvbi running : Nat → Bool) :
    ∀ fuel i, main_loop zvbi running fuel i = some 0 →
      (∃ j, running j = false) ∨ (∃ j, zvbi j = false) := by
  intro fuel
  induction fuel with
  | zero => intro i h; exact absurd h (by simp [main_loop])
  | succ f ih =>
    intro i h
    simp only [main_loop] at h
    split_ifs at h with hr hz hr2
    · exact Or.inl ⟨2 * i, hr⟩
    · exact Or.inr ⟨i, hz⟩
    · exact Or.inl ⟨2 * i + 1, hr2⟩
    · exact ih (i + 1) h

/-- C9 counterexample to the claim as stated: the claim requires a
re-initialisation failure inside the reconnect loop to exit with a
non-zero code, but in the code the failed `zvbi_init()` merely `break`s
out of the loop and `main` falls through to `return 0`: with validation,
socket, initial zvbi and curl all fine, the running flag never cleared
and `zvbi_init` failing at the first loop iteration, the process exits
with code 0. -/
theorem C9_counterexample :
    main_exit 5 409 5555 true true true (fun _ => false) (fun _ => true) 1 =
      some 0 := rfl

/-- C9 (corrected: a `zvbi_init` failure inside the reconnect loop also
exits with code 0).  Exit-code discipline: the modelled `main` terminates
with exit code 0 only when shutdown was initiated by the signal flag
being cleared or by a re-initialisation failure inside the reconnect
loop; wrong argument count, invalid PID or port, socket-creation failure,
failure of the initial Teletext-library creation, and `curl_easy_init`
failure all exit with code 1. -/
theorem C9_exit_codes (argc : Nat) (pid udp_port : Int)
    (socket_ok zvbi0_ok curl_ok : Bool) (zvbi running : Nat → Bool) (fuel : Nat)
    (h : main_exit argc pid udp_port socket_ok zvbi0_ok curl_ok zvbi running fuel =
      some 0) :
    (∃ j, running j = false) ∨ (∃ j, zvbi j = false) := by
  unfold main_exit at h
  split_ifs at h with h1 h2 h3 h4
  · exact absurd h (by simp)
  · exact absurd h (by simp)
  · exact absurd h (by simp)
  · exact absurd h (by simp)
  · exact main_loop_exit_zero zvbi running fuel 0 h

/-- Witness for C9 (corrected): at the counterexample input the loop
exited because `zvbi_init` failed at iteration 0. -/
theorem C9_exit_codes_witness :
    main_exit 5 409 5555 true true true (fun _ => false) (fun _ => true) 1 =
      some 0 ∧
    ((∃ _j : Nat, (true : Bool) = false) ∨ (∃ _j : Nat, (false : Bool) = false)) :=
  ⟨rfl, C9_exit_codes 5 409 5555 true true true
    (fun _ => false) (fun _ => true) 1 rfl⟩

/- ================================================================
   C4 groundwork: arithmetic bridges and natDigits
   ================================================================ -/

theorem lor_128 : ∀ x < 64, 128 ||| x = 128 + x := by decide

theorem lor_192 : ∀ x < 32, 192 ||| x = 192 + x := by decide

theorem lor_224 : ∀ x < 16, 224 ||| x = 224 + x := by decide

theorem and_63 (x : Nat) : x &&& 63 = x % 64 := Nat.and_pow_two_sub_one_eq_mod x 6

theorem shiftr_6 (x : Nat) : x >>> 6 = x / 64 := Nat.shiftRight_eq_div_pow x 6

theorem shiftr_12 (x : Nat) : x >>> 12 = x / 4096 := Nat.shiftRight_eq_div_pow x 12

theorem natDigits_zero : natDigits 0 = [48] := by
  rw [natDigits]
  norm_num

theorem natDigits_lt_ten {n : Nat} (h : n < 10) : natDigits n = [48 + n] := by
  rw [natDigits]
  simp [h]

theorem natDigits_ge_ten {n : Nat} (h : 10 ≤ n) :
    natDigits n = natDigits (n / 10) ++ [48 + n % 10] := by
  rw [natDigits]
  simp [Nat.not_lt.mpr h]

/-- Every emitted digit is an ASCII decimal digit. -/
theorem natDigits_digits (n : Nat) : ∀ b ∈ natDigits n, 48 ≤ b ∧ b ≤ 57 := by
  by_cases h : n < 10
  · rw [natDigits_lt_ten h]
    intro b hb
    simp at hb
    omega
  · rw [natDigits_ge_ten (by omega)]
    intro b hb
    rcases List.mem_append.mp hb with hb | hb
    · exact natDigits_digits (n / 10) b hb
    · simp at hb
      have := Nat.mod_lt n (show 0 < 10 by norm_num)
      omega
termination_by n
decreasing_by exact Nat.div_lt_self (by omega) (by omega)

/-- A positive number's digit string starts with a nonzero digit; the
rest are digits. -/
theorem natDigits_head (n : Nat) (hn : 1 ≤ n) :
    ∃ d ds, natDigits n = d :: ds ∧ 49 ≤ d ∧ d ≤ 57 ∧
      ∀ b ∈ ds, 48 ≤ b ∧ b ≤ 57 := by
  by_cases h : n < 10
  · exact ⟨48 + n, [], natDigits_lt_ten h, by omega, by omega, by simp⟩
  · obtain ⟨d, ds, hds, h49, h57, hall⟩ := natDigits_head (n / 10)
      (by omega)
    refine ⟨d, ds ++ [48 + n % 10], ?_, h49, h57, ?_⟩
    · rw [natDigits_ge_ten (by omega), hds]
      simp
    · intro b hb
      rcases List.mem_append.mp hb with hb | hb
      · exact hall b hb
      · simp at hb
        have := Nat.mod_lt n (show 0 < 10 by norm_num)
        omega
termination_by n
decreasing_by exact Nat.div_lt_self (by omega) (by omega)

/-- Digit-count bound: `n < 10 ^ (k+1)` gives at most `k+1` digits. -/
theorem natDigits_len (k : Nat) : ∀ n < 10 ^ (k + 1), (natDigits n).length ≤ k + 1 := by
  induction k with
  | zero =>
    intro n hn
    rw [natDigits_lt_ten (by norm_num at hn; omega)]
    simp
  | succ k ih =>
    intro n hn
    by_cases h : n < 10
    · rw [natDigits_lt_ten h]
      simp
    · rw [natDigits_ge_ten (by omega)]
      have hdiv : n / 10 < 10 ^ (k + 1) := by
        rw [Nat.div_lt_iff_lt_mul (by norm_num)]
        calc n < 10 ^ (k + 2) := hn
        _ = 10 ^ (k + 1) * 10 := by ring
      have := ih (n / 10) hdiv
      simp [List.length_append]
      omega

theorem fmtInt_len {i : Int} (h : i.natAbs < 10 ^ 18) : (fmtInt i).length ≤ 19 := by
  unfold fmtInt
  split_ifs with hneg
  · have := natDigits_len 17 i.natAbs (by exact_mod_cast h)
    simp
    omega
  · have habs : i.toNat = i.natAbs := by omega
    have := natDigits_len 17 i.toNat (by rw [habs]; exact_mod_cast h)
    omega

/- ================================================================
   C4 groundwork: utf8_encode
   ================================================================ -/

theorem utf8_encode_ascii {cp : Nat} (h : cp < 0x80) : utf8_encode cp = [cp] := by
  unfold utf8_encode
  rw [if_pos h]

theorem utf8_encode_two {cp : Nat} (h1 : 0x80 ≤ cp) (h2 : cp < 0x800) :
    utf8_encode cp = [192 + cp / 64, 128 + cp % 64] := by
  unfold utf8_encode
  rw [if_neg (by omega), if_pos h2, shiftr_6, and_63,
    lor_192 _ (by omega), lor_128 _ (by omega)]

theorem utf8_encode_three {cp : Nat} (h1 : 0x800 ≤ cp) (h2 : cp < 0x10000) :
    utf8_encode cp = [224 + cp / 4096, 128 + cp / 64 % 64, 128 + cp % 64] := by
  unfold utf8_encode
  rw [if_neg (by omega), if_neg (by omega), shiftr_12, shiftr_6, and_63, and_63,
    lor_224 _ (by omega), lor_128 _ (by omega), lor_128 _ (by omega)]

theorem utf8_encode_len (cp : Nat) : (utf8_encode cp).length ≤ 3 := by
  unfold utf8_encode
  split_ifs <;> simp

theorem utf8_encode_ne_nil (cp : Nat) : utf8_encode cp ≠ [] := by
  unfold utf8_encode
  split_ifs <;> simp

/-- Octets of the encoding of a printable BMP codepoint are at least
0x20. -/
theorem utf8_encode_bytes_ge {cp : Nat} (h : 0x20 ≤ cp) (h2 : cp < 0x10000) :
    ∀ b ∈ utf8_encode cp, 32 ≤ b := by
  intro b hb
  by_cases ha : cp < 0x80
  · rw [utf8_encode_ascii ha] at hb
    simp at hb
    omega
  · by_cases hb8 : cp < 0x800
    · rw [utf8_encode_two (by omega) hb8] at hb
      simp at hb
      rcases hb with rfl | rfl <;> omega
    · rw [utf8_encode_three (by omega) h2] at hb
      simp at hb
      rcases hb with rfl | rfl | rfl <;> omega

/-- Octets of the encoding of a codepoint at or above 0x80 are at least
0x80. -/
theorem utf8_encode_bytes_hi {cp : Nat} (h : 0x80 ≤ cp) (h2 : cp < 0x10000) :
    ∀ b ∈ utf8_encode cp, 0x80 ≤ b := by
  intro b hb
  by_cases hb8 : cp < 0x800
  · rw [utf8_encode_two h hb8] at hb
    simp at hb
    rcases hb with rfl | rfl <;> omega
  · rw [utf8_encode_three (by omega) h2] at hb
    simp at hb
    rcases hb with rfl | rfl | rfl <;> omega

/-- The last octet of the encoding of a non-space codepoint is not a
space. -/
theorem utf8_encode_last_ne_32 {cp : Nat} (h : cp ≠ 32) (h2 : cp < 0x10000) :
    (utf8_encode cp).getLast? ≠ some 32 := by
  by_cases ha : cp < 0x80
  · rw [utf8_encode_ascii ha]
    simp
    omega
  · by_cases hb8 : cp < 0x800
    · rw [utf8_encode_two (by omega) hb8]
      simp
      omega
    · rw [utf8_encode_three (by omega) h2]
      simp
      omega

/-- Prepending the UTF-8 encoding of a good codepoint preserves the RFC
3629 validity check. -/
theorem utf8Valid_encode_append {cp : Nat} (hG : GoodCp cp) (rest : List Nat) :
    utf8Valid (utf8_encode cp ++ rest) = utf8Valid rest := by
  obtain ⟨h20, hEE, hsur⟩ := hG
  by_cases ha : cp < 0x80
  · rw [utf8_encode_ascii ha]
    simp only [List.cons_append, List.nil_append]
    rw [utf8Valid, if_pos ha]
  · by_cases hb8 : cp < 0x800
    · rw [utf8_encode_two (by omega) hb8]
      simp only [List.cons_append, List.nil_append]
      rw [utf8Valid, if_neg (by omega), if_pos (by omega)]
      simp only [List.length_cons, List.getD_cons_zero, List.drop_succ_cons,
        List.drop_zero]
      have hx : (decide (1 ≤ rest.length + 1) && isCont (128 + cp % 64)) = true := by
        simp [isCont, byteIn]
        omega
      rw [hx, Bool.true_and]
    · rw [utf8_encode_three (by omega) (by omega)]
      simp only [List.cons_append, List.nil_append]
      by_cases h1000 : cp < 0x1000
      · rw [utf8Valid, if_neg (by omega), if_neg (by omega), if_pos (by omega)]
        simp only [List.length_cons, List.getD_cons_zero, List.getD_cons_succ,
          List.drop_succ_cons, List.drop_zero]
        have hx : (decide (2 ≤ rest.length + 1 + 1) &&
            byteIn 0xA0 0xBF (128 + cp / 64 % 64) && isCont (128 + cp % 64)) = true := by
          simp [isCont, byteIn]
          omega
        rw [hx, Bool.true_and]
      · by_cases hD000 : cp < 0xD000
        · rw [utf8Valid, if_neg (by omega), if_neg (by omega), if_neg (by omega),
            if_pos (by omega)]
          simp only [List.length_cons, List.getD_cons_zero, List.getD_cons_succ,
            List.drop_succ_cons, List.drop_zero]
          have hx : (decide (2 ≤ rest.length + 1 + 1) &&
              isCont (128 + cp / 64 % 64) && isCont (128 + cp % 64)) = true := by
            simp [isCont, byteIn]
            omega
          rw [hx, Bool.true_and]
        · by_cases hD800 : cp < 0xD800
          · rw [utf8Valid, if_neg (by omega), if_neg (by omega), if_neg (by omega),
              if_neg (by omega), if_pos (by omega)]
            simp only [List.length_cons, List.getD_cons_zero, List.getD_cons_succ,
              List.drop_succ_cons, List.drop_zero]
            have hx : (decide (2 ≤ rest.length + 1 + 1) &&
                byteIn 0x80 0x9F (128 + cp / 64 % 64) && isCont (128 + cp % 64)) = true := by
              simp [isCont, byteIn]
              omega
            rw [hx, Bool.true_and]
          · have hE : 0xE000 ≤ cp := by omega
            rw [utf8Valid, if_neg (by omega), if_neg (by omega), if_neg (by omega),
              if_pos (by omega)]
            simp only [List.length_cons, List.getD_cons_zero, List.getD_cons_succ,
              List.drop_succ_cons, List.drop_zero]
            have hx : (decide (2 ≤ rest.length + 1 + 1) &&
                isCont (128 + cp / 64 % 64) && isCont (128 + cp % 64)) = true := by
              simp [isCont, byteIn]
              omega
            rw [hx, Bool.true_and]

/-- ASCII octets are transparent to the validity check. -/
theorem utf8Valid_ascii_append (a r : List Nat) (h : ∀ b ∈ a, b < 0x80) :
    utf8Valid (a ++ r) = utf8Valid r := by
  induction a with
  | nil => simp
  | cons b a ih =>
    simp only [List.cons_append]
    rw [utf8Valid, if_pos (h b (by simp))]
    exact ih (fun x hx => h x (by simp [hx]))

/-- The guarded row fold never hits its guard within bounds. -/
theorem build_fold_eq (g : Nat → Nat) (cps : List Nat) : ∀ acc : List Nat,
    acc.length + 3 * cps.length ≤ 252 →
    cps.foldl (fun acc c => if acc.length < 252 then acc ++ utf8_encode (g c) else acc)
      acc = acc ++ ((cps.map g).map utf8_encode).flatten := by
  induction cps with
  | nil =>
    intro acc _
    simp
  | cons cp cps ih =>
    intro acc h
    simp only [List.length_cons] at h
    simp only [List.foldl_cons]
    rw [if_pos (by omega)]
    rw [ih _ (by have := utf8_encode_len (g cp); simp only [List.length_append]; omega)]
    simp [List.append_assoc]

/-- The row fold over an arbitrary cell-index list, in map/flatten form. -/
theorem build_fold_spec (page : VbiPage) (r : Nat) (l : List Nat) (h : 3 * l.length ≤ 252) :
    l.foldl
      (fun acc c => if acc.length < 252 then
        acc ++ utf8_encode (scrub (page.text.getD (r * 40 + c) 0)) else acc) [] =
    ((l.map (fun c => scrub (page.text.getD (r * 40 + c) 0))).map
      utf8_encode).flatten := by
  exact build_fold_eq (fun c => scrub (page.text.getD (r * 40 + c) 0)) l [] (by simpa using h)

/-- On a 40-column grid the row builder is the concatenation of the
cell encodings of the scrubbed row. -/
theorem build_row_eq (page : VbiPage) (r : Nat) (hcols : page.columns = 40) :
    build_row page r = ((rowCps page r).map utf8_encode).flatten := by
  have h := build_fold_spec page r (List.range 40) (by simp)
  unfold build_row rowCps
  rw [hcols]
  exact h

theorem rowCps_len (page : VbiPage) (r : Nat) : (rowCps page r).length = 40 := by
  simp [rowCps]

/-- Concatenated encodings take at most three octets per codepoint. -/
theorem flatten_enc_len (cps : List Nat) :
    ((cps.map utf8_encode).flatten).length ≤ 3 * cps.length := by
  induction cps with
  | nil => simp
  | cons cp cps ih =>
    simp only [List.map_cons, List.flatten_cons, List.length_append, List.length_cons]
    have := utf8_encode_len cp
    omega

/-- All octets of concatenated good-codepoint encodings are printable. -/
theorem flatten_enc_bytes_ge (cps : List Nat) (h : ∀ cp ∈ cps, GoodCp cp) :
    ∀ b ∈ (cps.map utf8_encode).flatten, 32 ≤ b := by
  intro b hb
  rw [List.mem_flatten] at hb
  obtain ⟨l, hl, hbl⟩ := hb
  rw [List.mem_map] at hl
  obtain ⟨cp, hcp, rfl⟩ := hl
  obtain ⟨h1, h2, _⟩ := h cp hcp
  exact utf8_encode_bytes_ge h1 (by omega) b hbl

/-- Concatenated encodings of good codepoints are valid UTF-8. -/
theorem utf8Valid_flatten (cps : List Nat) (h : ∀ cp ∈ cps, GoodCp cp) :
    utf8Valid ((cps.map utf8_encode).flatten) = true := by
  induction cps with
  | nil => simp [utf8Valid]
  | cons cp cps ih =>
    simp only [List.map_cons, List.flatten_cons]
    rw [utf8Valid_encode_append (h cp (by simp))]
    exact ih (fun x hx => h x (by simp [hx]))

/- ================================================================
   C4 groundwork: the trailing-space trim
   ================================================================ -/

/-- The codepoint-level trim is the same function as the octet-level
trim. -/
theorem dropTrailing32_eq (l : List Nat) : dropTrailing32 l = rtrimSpaces l := rfl

/-- Trimming removes a trailing space. -/
theorem rtrim_append32 (l : List Nat) : rtrimSpaces (l ++ [32]) = rtrimSpaces l := by
  unfold rtrimSpaces
  rw [List.reverse_append]
  simp [List.dropWhile_cons]

/-- The head of the space-dropped list is not a space. -/
theorem head_dropWhile32 (m : List Nat) :
    (m.dropWhile (fun b => b == 32)).head? ≠ some 32 := by
  induction m with
  | nil => simp
  | cons b t ih =>
    rw [List.dropWhile_cons]
    by_cases hb : b = 32
    · simp [hb, ih]
    · simp [hb]

/-- Trimming a list whose last octet is not a space changes nothing. -/
theorem rtrim_noop {l : List Nat} (h : l.getLast? ≠ some 32) : rtrimSpaces l = l := by
  unfold rtrimSpaces
  cases hr : l.reverse with
  | nil =>
    have : l = [] := by simpa using congrArg List.reverse hr
    simp [this]
  | cons b t =>
    have hb : b ≠ 32 := by
      intro hb
      apply h
      rw [← List.head?_reverse, hr, hb]
      rfl
    rw [List.dropWhile_cons, if_neg (by simp [hb])]
    rw [← hr, List.reverse_reverse]

/-- The trimmed list never ends in a space. -/
theorem rtrim_getLast (l : List Nat) : (rtrimSpaces l).getLast? ≠ some 32 := by
  unfold rtrimSpaces
  rw [List.getLast?_reverse]
  exact head_dropWhile32 l.reverse

/-- Trimming only removes octets. -/
theorem mem_rtrim {b : Nat} {l : List Nat} (h : b ∈ rtrimSpaces l) : b ∈ l := by
  unfold rtrimSpaces at h
  rw [List.mem_reverse] at h
  have := (List.dropWhile_sublist (fun b => b == 32)).subset h
  exact List.mem_reverse.mp this

/-- Trimming does not lengthen. -/
theorem rtrim_length_le (l : List Nat) : (rtrimSpaces l).length ≤ l.length := by
  unfold rtrimSpaces
  have := (List.dropWhile_sublist (l := l.reverse) (fun b => b == 32)).length_le
  simpa using this

/-- The scrub of a non-surrogate codepoint is good. -/
theorem scrub_good {cp : Nat} (h : ¬ (0xD800 ≤ cp ∧ cp < 0xE000)) :
    GoodCp (scrub cp) := by
  unfold scrub GoodCp
  split_ifs with hs
  · refine ⟨by omega, by omega, by omega⟩
  · push_neg at hs
    refine ⟨by omega, by omega, h⟩

/-- Under the fetch contract every scrubbed cell of a row is good. -/
theorem rowCps_good (page : VbiPage) (hw : WfPage page) (r : Nat) :
    ∀ cp ∈ rowCps page r, GoodCp cp := by
  intro cp hcp
  unfold rowCps at hcp
  rw [List.mem_map] at hcp
  obtain ⟨c, _, rfl⟩ := hcp
  apply scrub_good
  by_cases hi : r * 40 + c < page.text.length
  · rw [List.getD_eq_getElem page.text 0 hi]
    exact hw.2.2 _ (List.getElem_mem hi)
  · rw [List.getD_eq_default page.text 0 (by omega)]
    decide

/-- Trimming trailing spaces from concatenated cell encodings is
encoding the space-trimmed codepoints: a 0x20 octet occurs only as the
whole encoding of the space codepoint. -/
theorem rtrim_flatten (cps : List Nat) (h : ∀ cp ∈ cps, GoodCp cp) :
    rtrimSpaces ((cps.map utf8_encode).flatten) =
      ((dropTrailing32 cps).map utf8_encode).flatten := by
  induction cps using List.reverseRecOn with
  | nil => simp [rtrimSpaces, dropTrailing32]
  | append_singleton cps cp ih =>
    rw [List.map_append, List.flatten_append]
    simp only [List.map_cons, List.map_nil, List.flatten_cons, List.flatten_nil,
      List.append_nil]
    by_cases h32 : cp = 32
    · subst h32
      rw [utf8_encode_ascii (by norm_num), rtrim_append32, dropTrailing32_eq,
        rtrim_append32, ← dropTrailing32_eq]
      exact ih (fun x hx => h x (by simp [hx]))
    · have hG := h cp (by simp)
      have hlast : (utf8_encode cp).getLast? ≠ some 32 :=
        utf8_encode_last_ne_32 h32 (by rcases hG with ⟨_, h2, _⟩; omega)
      have hne : utf8_encode cp ≠ [] := utf8_encode_ne_nil cp
      rw [rtrim_noop (by rw [List.getLast?_append_of_ne_nil _ hne]; exact hlast),
        dropTrailing32_eq,
        rtrim_noop (by rw [List.getLast?_append_of_ne_nil _ (by simp)]; simp [h32]),
        List.map_append, List.flatten_append]
      simp

/- ================================================================
   C4 groundwork: escaping
   ================================================================ -/

/-- Printable input octets escape to at most two octets. -/
theorem escapeChar_len_ge32 {b : Nat} (h : 32 ≤ b) : (escapeChar b).length ≤ 2 := by
  unfold escapeChar
  split_ifs <;> simp_all <;> omega

/-- Escapes of ASCII octets stay ASCII. -/
theorem escapeChar_ascii {b : Nat} (h : b < 0x80) : ∀ x ∈ escapeChar b, x < 0x80 := by
  intro x hx
  unfold escapeChar at hx
  split_ifs at hx with h1 h2 h3 h4 h5 h6
  all_goals simp only [List.mem_cons, List.not_mem_nil, or_false] at hx
  · rcases hx with rfl | rfl <;> omega
  · rcases hx with rfl | rfl <;> omega
  · rcases hx with rfl | rfl <;> omega
  · rcases hx with rfl | rfl <;> omega
  · rcases hx with rfl | rfl <;> omega
  · rcases hx with rfl | rfl | rfl | rfl | rfl | rfl
    · omega
    · omega
    · omega
    · omega
    · unfold hexChar; split_ifs <;> omega
    · unfold hexChar; split_ifs <;> omega
  · omega

/-- Octets at or above 0x80 pass through the escaper unchanged. -/
theorem escapeChar_hi {b : Nat} (h : 0x80 ≤ b) : escapeChar b = [b] := by
  unfold escapeChar
  rw [if_neg (by omega), if_neg (by omega), if_neg (by omega), if_neg (by omega),
    if_neg (by omega), if_neg (by omega)]

/-- Printable octets other than the quote and the backslash pass through
unchanged. -/
theorem escapeChar_plain {b : Nat} (h : 32 ≤ b) (h34 : b ≠ 34) (h92 : b ≠ 92) :
    escapeChar b = [b] := by
  unfold escapeChar
  rw [if_neg h34, if_neg h92, if_neg (by omega), if_neg (by omega), if_neg (by omega),
    if_neg (by omega)]

/-- A run of high octets is untouched by escaping. -/
theorem flatten_esc_hi (l : List Nat) (h : ∀ b ∈ l, 0x80 ≤ b) :
    (l.map escapeChar).flatten = l := by
  induction l with
  | nil => simp
  | cons b t ih =>
    simp only [List.map_cons, List.flatten_cons]
    rw [escapeChar_hi (h b (by simp)), ih (fun x hx => h x (by simp [hx]))]
    simp

/-- `json_escape` under its length guard is octetwise escaping. -/
theorem json_escape_eq (l : List Nat) : ∀ out : List Nat, (∀ b ∈ l, 32 ≤ b) →
    out.length + 2 * l.length ≤ 506 →
    json_escape l out = out ++ (l.map escapeChar).flatten := by
  induction l with
  | nil =>
    intro out _ _
    simp [json_escape]
  | cons c rest ih =>
    intro out hb hlen
    simp only [List.length_cons] at hlen
    rw [json_escape, if_pos (by omega)]
    rw [ih (out ++ escapeChar c) (fun x hx => hb x (by simp [hx]))
      (by have := escapeChar_len_ge32 (hb c (by simp)); simp only [List.length_append]; omega)]
    simp [List.append_assoc]

/-- Escaped printable octets take at most two octets each. -/
theorem flatten_esc_len (l : List Nat) (h : ∀ b ∈ l, 32 ≤ b) :
    ((l.map escapeChar).flatten).length ≤ 2 * l.length := by
  induction l with
  | nil => simp
  | cons b t ih =>
    simp only [List.map_cons, List.flatten_cons, List.length_append, List.length_cons]
    have h1 := escapeChar_len_ge32 (h b (by simp))
    have h2 := ih (fun x hx => h x (by simp [hx]))
    omega

/-- Escaping a concatenation of blocks, regrouped per block. -/
theorem flatten_map_map (f g : Nat → List Nat) (l : List Nat) :
    (((l.map f).flatten).map g).flatten =
      (l.map (fun x => ((f x).map g).flatten)).flatten := by
  induction l with
  | nil => simp
  | cons x xs ih =>
    simp only [List.map_cons, List.flatten_cons, List.map_append, List.flatten_append]
    rw [ih]

/-- The escaped encoding block of a good codepoint is transparent to the
UTF-8 validity check. -/
theorem utf8Valid_escBlock_append {cp : Nat} (hG : GoodCp cp) (rest : List Nat) :
    utf8Valid ((((utf8_encode cp).map escapeChar).flatten) ++ rest) = utf8Valid rest := by
  by_cases ha : cp < 0x80
  · rw [utf8_encode_ascii ha]
    simp only [List.map_cons, List.map_nil, List.flatten_cons, List.flatten_nil,
      List.append_nil]
    exact utf8Valid_ascii_append _ rest (escapeChar_ascii ha)
  · rw [flatten_esc_hi _ (utf8_encode_bytes_hi (by omega)
      (by rcases hG with ⟨_, h2, _⟩; omega))]
    exact utf8Valid_encode_append hG rest

/-- Concatenated escaped encodings of good codepoints are valid UTF-8. -/
theorem utf8Valid_esc_blocks (cps : List Nat) (h : ∀ cp ∈ cps, GoodCp cp) :
    utf8Valid ((cps.map (fun cp => ((utf8_encode cp).map escapeChar).flatten)).flatten)
      = true := by
  induction cps with
  | nil => simp [utf8Valid]
  | cons cp cps ih =>
    simp only [List.map_cons, List.flatten_cons]
    rw [utf8Valid_escBlock_append (h cp (by simp))]
    exact ih (fun x hx => h x (by simp [hx]))

/-- The escape of a concatenation of good-codepoint encodings is valid
UTF-8. -/
theorem utf8Valid_esc_flatten (cps : List Nat) (h : ∀ cp ∈ cps, GoodCp cp) :
    utf8Valid ((((cps.map utf8_encode).flatten).map escapeChar).flatten) = true := by
  rw [flatten_map_map]
  exact utf8Valid_esc_blocks cps h

/-- The scan of a closing quote. -/
theorem scanString_quote (r : List Nat) : scanString (34 :: r) = some r := by
  rw [scanString.eq_def]
  simp

/-- The scan of an escaped quote or backslash. -/
theorem scanString_esc2 (e : Nat) (r2 : List Nat) (he : e = 34 ∨ e = 92) :
    scanString (92 :: e :: r2) = scanString r2 := by
  rcases he with rfl | rfl
  · rw [scanString.eq_def]
    simp
  · rw [scanString.eq_def]
    simp

/-- The scan of an ordinary printable octet. -/
theorem scanString_plainstep (b : Nat) (r : List Nat) (h34 : b ≠ 34) (h92 : b ≠ 92)
    (h32 : 32 ≤ b) : scanString (b :: r) = scanString r := by
  rw [scanString.eq_def]
  simp [h34, h92, h32]

/-- A JSON string scan runs through an escaped printable octet string and
stops at the closing quote. -/
theorem scanString_escape (l : List Nat) (h : ∀ b ∈ l, 32 ≤ b) :
    ∀ rest, scanString ((l.map escapeChar).flatten ++ 34 :: rest) = some rest := by
  induction l with
  | nil =>
    intro rest
    simp only [List.map_nil, List.flatten_nil, List.nil_append]
    exact scanString_quote rest
  | cons b t ih =>
    intro rest
    have hb := h b (by simp)
    have iht := ih (fun x hx => h x (by simp [hx]))
    simp only [List.map_cons, List.flatten_cons, List.append_assoc]
    by_cases h34 : b = 34
    · subst h34
      rw [show escapeChar 34 = [92, 34] by simp [escapeChar]]
      simp only [List.cons_append, List.nil_append]
      rw [scanString_esc2 34 _ (Or.inl rfl)]
      exact iht rest
    · by_cases h92 : b = 92
      · subst h92
        rw [show escapeChar 92 = [92, 92] by simp [escapeChar]]
        simp only [List.cons_append, List.nil_append]
        rw [scanString_esc2 92 _ (Or.inr rfl)]
        exact iht rest
      · rw [escapeChar_plain hb h34 h92]
        simp only [List.cons_append, List.nil_append]
        rw [scanString_plainstep b _ h34 h92 hb]
        exact iht rest

/-- The escape of a printable octet string not ending in a space does not
end in a space. -/
theorem esc_flatten_getLast (l : List Nat) (h : ∀ b ∈ l, 32 ≤ b)
    (hlast : l.getLast? ≠ some 32) :
    ((l.map escapeChar).flatten).getLast? ≠ some 32 := by
  induction l using List.reverseRecOn with
  | nil => simp
  | append_singleton t b _ =>
    rw [List.map_append, List.flatten_append]
    simp only [List.map_cons, List.map_nil, List.flatten_cons, List.flatten_nil,
      List.append_nil]
    have hb32 : 32 ≤ b := h b (by simp)
    have hbne : b ≠ 32 := by
      intro hb
      apply hlast
      simp [hb]
    by_cases h34 : b = 34
    · subst h34
      have : (t.map escapeChar).flatten ++ escapeChar 34 =
          ((t.map escapeChar).flatten ++ [92]) ++ [34] := by
        simp [escapeChar]
      rw [this]
      simp
    · by_cases h92 : b = 92
      · subst h92
        have : (t.map escapeChar).flatten ++ escapeChar 92 =
            ((t.map escapeChar).flatten ++ [92]) ++ [92] := by
          simp [escapeChar]
        rw [this]
        simp
      · rw [escapeChar_plain hb32 h34 h92]
        simp [hbne]

/- ================================================================
   C4 groundwork: scanner stepping lemmas
   ================================================================ -/

/-- A string value scan enters the string body. -/
theorem scanValue_str (f : Nat) (r : List Nat) :
    scanValue (f + 1) (34 :: r) = scanString r := by
  simp [scanValue]

/-- An array value scan: first element, then the element list. -/
theorem scanValue_arr (f : Nat) (r r2 rest : List Nat) (h1 : scanValue f r = some r2)
    (h2 : scanArrayRest f r2 = some rest) :
    scanValue (f + 1) (91 :: r) = some rest := by
  simp [scanValue, h1, h2]

/-- An object value scan: key string, colon, first member value. -/
theorem scanValue_objstep (f : Nat) (kr vr r5 : List Nat)
    (h1 : scanString kr = some (58 :: vr)) (h2 : scanValue f vr = some r5) :
    scanValue (f + 1) (123 :: 34 :: kr) = scanObjRest f r5 := by
  simp [scanValue, h1, h2]

/-- A further object member: comma, key string, colon, value. -/
theorem scanObjRest_member (f : Nat) (kr vr r5 : List Nat)
    (h1 : scanString kr = some (58 :: vr)) (h2 : scanValue f vr = some r5) :
    scanObjRest (f + 1) (44 :: 34 :: kr) = scanObjRest f r5 := by
  simp [scanObjRest, h1, h2]

/-- The closing brace ends the object. -/
theorem scanObjRest_close (f : Nat) (rest : List Nat) :
    scanObjRest (f + 1) (125 :: rest) = some rest := by
  simp [scanObjRest]

/-- Anything but a quote, bracket or brace is scanned as a number. -/
theorem scanValue_num (f : Nat) (b : Nat) (r : List Nat) (h34 : b ≠ 34)
    (h91 : b ≠ 91) (h123 : b ≠ 123) :
    scanValue (f + 1) (b :: r) = scanNumber (b :: r) := by
  simp [scanValue, h34, h91, h123]

/-- The closing bracket ends the array. -/
theorem scanArrayRest_close (f : Nat) (rest : List Nat) :
    scanArrayRest (f + 1) (93 :: rest) = some rest := by
  simp [scanArrayRest]

/-- A comma continues the array with another element. -/
theorem scanArrayRest_comma (f : Nat) (r r2 rest : List Nat)
    (h1 : scanValue f r = some r2) (h2 : scanArrayRest f r2 = some rest) :
    scanArrayRest (f + 1) (44 :: r) = some rest := by
  simp [scanArrayRest, h1, h2]

/- ================================================================
   C4 groundwork: number scanning
   ================================================================ -/

/-- The digit run is consumed and the scan stops at the first
non-digit. -/
theorem dropWhile_digits (ds : List Nat) (h : ∀ d ∈ ds, isDigitB d = true)
    (b : Nat) (hb : isDigitB b = false) (rest : List Nat) :
    (ds ++ b :: rest).dropWhile isDigitB = b :: rest := by
  induction ds with
  | nil => simp [List.dropWhile_cons, hb]
  | cons d ds ih =>
    simp only [List.cons_append, List.dropWhile_cons, h d (by simp)]
    simp only [if_true]
    exact ih (fun x hx => h x (by simp [hx]))

/-- The scan of a decimal digit string stops exactly at the first
non-digit. -/
theorem scanNumTail_nat (n b : Nat) (rest : List Nat) (hb : isDigitB b = false) :
    scanNumTail (natDigits n ++ b :: rest) = some (b :: rest) := by
  by_cases hn : n = 0
  · subst hn
    rw [natDigits_zero]
    simp [scanNumTail]
  · obtain ⟨d, ds, hds, h49, h57, hall⟩ := natDigits_head n (by omega)
    rw [hds]
    simp only [List.cons_append]
    rw [scanNumTail]
    rw [if_neg (by omega), if_pos (by omega)]
    rw [dropWhile_digits ds (fun x hx => by
      have := hall x hx; simp [isDigitB]; omega) b hb rest]

/-- Every natural's digit string starts with a digit octet. -/
theorem natDigits_cons (n : Nat) : ∃ d ds, natDigits n = d :: ds ∧ 48 ≤ d ∧ d ≤ 57 := by
  by_cases hn : n = 0
  · exact ⟨48, [], by rw [hn, natDigits_zero], by omega, by omega⟩
  · obtain ⟨d, ds, hds, h49, h57, _⟩ := natDigits_head n (by omega)
    exact ⟨d, ds, hds, by omega, h57⟩

/-- A natural number scans as a JSON number up to the first non-digit. -/
theorem scanNumber_nat (n b : Nat) (rest : List Nat) (hb : isDigitB b = false) :
    scanNumber (natDigits n ++ b :: rest) = some (b :: rest) := by
  obtain ⟨d, ds, hds, h48, h57⟩ := natDigits_cons n
  have h2 := scanNumTail_nat n b rest hb
  rw [hds, List.cons_append] at h2 ⊢
  rw [scanNumber]
  rw [if_neg (by omega)]
  exact h2

/-- A formatted int scans as a JSON number up to the first non-digit. -/
theorem scanNumber_int (i : Int) (b : Nat) (rest : List Nat) (hb : isDigitB b = false) :
    scanNumber (fmtInt i ++ b :: rest) = some (b :: rest) := by
  unfold fmtInt
  split_ifs with hneg
  · simp only [List.cons_append]
    rw [scanNumber]
    rw [if_pos rfl]
    exact scanNumTail_nat i.natAbs b rest hb
  · exact scanNumber_nat i.toNat b rest hb

/-- A number value: scanned like `scanNumber`. -/
theorem scanValue_natNum (f n b : Nat) (rest : List Nat) (hb : isDigitB b = false) :
    scanValue (f + 1) (natDigits n ++ b :: rest) = some (b :: rest) := by
  obtain ⟨d, ds, hds, h48, h57⟩ := natDigits_cons n
  have h2 := scanNumber_nat n b rest hb
  rw [hds, List.cons_append] at h2 ⊢
  rw [scanValue_num f d _ (by omega) (by omega) (by omega)]
  exact h2

/-- An int value: scanned like `scanNumber`. -/
theorem scanValue_intNum (f : Nat) (i : Int) (b : Nat) (rest : List Nat)
    (hb : isDigitB b = false) :
    scanValue (f + 1) (fmtInt i ++ b :: rest) = some (b :: rest) := by
  have h2 := scanNumber_int i b rest hb
  by_cases hneg : i < 0
  · rw [show fmtInt i = 45 :: natDigits i.natAbs by simp [fmtInt, hneg]] at h2 ⊢
    simp only [List.cons_append] at h2 ⊢
    rw [scanValue_num f 45 _ (by omega) (by omega) (by omega)]
    exact h2
  · rw [show fmtInt i = natDigits i.toNat by simp [fmtInt, hneg]] at h2 ⊢
    obtain ⟨d, ds, hds, h48, h57⟩ := natDigits_cons i.toNat
    rw [hds, List.cons_append] at h2 ⊢
    rw [scanValue_num f d _ (by omega) (by omega) (by omega)]
    exact h2

/- ================================================================
   C4 groundwork: the lines array
   ================================================================ -/

/-- The quote-joined entry list, written as first entry plus
comma-prefixed blocks. -/
theorem quoteJoin_cons_eq (e : List Nat) (es : List (List Nat)) :
    quoteJoin (e :: es) =
      34 :: (e ++ 34 :: (es.map (fun x => 44 :: 34 :: (x ++ [34]))).flatten) := by
  induction es generalizing e with
  | nil => simp [quoteJoin]
  | cons e2 es ih =>
    rw [quoteJoin, ih e2]
    · simp [List.append_assoc]
    · simp

/-- The element-list scan runs through comma-separated quoted entries and
stops at the closing bracket. -/
theorem scanArrayRest_flat (es : List (List Nat)) : ∀ fuel, es.length + 1 ≤ fuel →
    (∀ e ∈ es, ScanOk e) → ∀ rest,
    scanArrayRest fuel
      ((es.map (fun x => 44 :: 34 :: (x ++ [34]))).flatten ++ 93 :: rest) = some rest := by
  induction es with
  | nil =>
    intro fuel hf _ rest
    cases fuel with
    | zero => omega
    | succ f =>
      simp only [List.map_nil, List.flatten_nil, List.nil_append]
      exact scanArrayRest_close f rest
  | cons e es ih =>
    intro fuel hf h rest
    simp only [List.length_cons] at hf
    cases fuel with
    | zero => omega
    | succ f =>
      cases f with
      | zero => omega
      | succ f2 =>
        simp only [List.map_cons, List.flatten_cons, List.cons_append,
          List.append_assoc, List.nil_append]
        refine scanArrayRest_comma (f2 + 1) _
          ((es.map (fun x => 44 :: 34 :: (x ++ [34]))).flatten ++ 93 :: rest) rest ?_ ?_
        · rw [scanValue_str]
          exact h e (by simp) _
        · exact ih (f2 + 1) (by omega) (fun x hx => h x (by simp [hx])) rest

/-- The whole `lines` array scan. -/
theorem scanValue_lines (f : Nat) (hf : 24 ≤ f) (es : List (List Nat))
    (hlen : es.length = 25) (hes : ∀ e ∈ es, ScanOk e) (rest : List Nat) :
    scanValue (f + 1 + 1) (91 :: (quoteJoin es ++ 93 :: rest)) = some rest := by
  cases es with
  | nil => simp at hlen
  | cons e0 es =>
    rw [quoteJoin_cons_eq]
    simp only [List.cons_append, List.append_assoc]
    refine scanValue_arr (f + 1) _
      ((es.map (fun x => 44 :: 34 :: (x ++ [34]))).flatten ++ 93 :: rest) rest ?_ ?_
    · rw [scanValue_str]
      exact hes e0 (by simp) _
    · exact scanArrayRest_flat es (f + 1)
        (by simp only [List.length_cons] at hlen; omega)
        (fun x hx => hes x (by simp [hx])) rest

/- ================================================================
   C4 groundwork: per-entry properties
   ================================================================ -/

/-- Everything C4 needs about one emitted `lines` entry: bounded length,
valid UTF-8, no trailing space, and exact consumption by the JSON string
scanner. -/
theorem entry_props (page : VbiPage) (hw : WfPage page) (r : Nat) :
    (json_escape (rtrimSpaces (build_row page r)) []).length ≤ 240 ∧
    utf8Valid (json_escape (rtrimSpaces (build_row page r)) []) = true ∧
    (json_escape (rtrimSpaces (build_row page r)) []).getLast? ≠ some 32 ∧
    ScanOk (json_escape (rtrimSpaces (build_row page r)) []) := by
  have hgood := rowCps_good page hw r
  have hbr := build_row_eq page r hw.2.1
  have hgood' : ∀ cp ∈ dropTrailing32 (rowCps page r), GoodCp cp := by
    intro cp hcp
    rw [dropTrailing32_eq] at hcp
    exact hgood cp (mem_rtrim hcp)
  have hlen' : (dropTrailing32 (rowCps page r)).length ≤ 40 := by
    rw [dropTrailing32_eq]
    have := rtrim_length_le (rowCps page r)
    rw [rowCps_len] at this
    exact this
  have hraw : rtrimSpaces (build_row page r) =
      ((dropTrailing32 (rowCps page r)).map utf8_encode).flatten := by
    rw [hbr]
    exact rtrim_flatten _ hgood
  have hbytes : ∀ b ∈ rtrimSpaces (build_row page r), 32 ≤ b := by
    rw [hraw]
    exact flatten_enc_bytes_ge _ hgood'
  have hrawlen : (rtrimSpaces (build_row page r)).length ≤ 120 := by
    rw [hraw]
    have := flatten_enc_len (dropTrailing32 (rowCps page r))
    omega
  have hlaste : (rtrimSpaces (build_row page r)).getLast? ≠ some 32 :=
    rtrim_getLast _
  have he : json_escape (rtrimSpaces (build_row page r)) [] =
      ((rtrimSpaces (build_row page r)).map escapeChar).flatten := by
    have := json_escape_eq (rtrimSpaces (build_row page r)) [] hbytes
      (by simp only [List.length_nil]; omega)
    simpa using this
  refine ⟨?_, ?_, ?_, ?_⟩
  · rw [he]
    have := flatten_esc_len _ hbytes
    omega
  · rw [he, hraw]
    exact utf8Valid_esc_flatten _ hgood'
  · rw [he]
    exact esc_flatten_getLast _ hbytes hlaste
  · intro rest
    rw [he]
    exact scanString_escape _ hbytes rest

/-- The emitted `lines` array has exactly 25 entries. -/
theorem pageEntries_len (page : VbiPage) (hw : WfPage page) :
    (pageEntries page).length = 25 := by
  unfold pageEntries
  simp [hw.1]

/-- Every emitted entry is short, valid UTF-8, has no trailing space and
scans exactly. -/
theorem pageEntries_mem (page : VbiPage) (hw : WfPage page) :
    ∀ e ∈ pageEntries page, e.length ≤ 240 ∧ utf8Valid e = true ∧
      e.getLast? ≠ some 32 ∧ ScanOk e := by
  intro e he
  unfold pageEntries at he
  rw [List.mem_map] at he
  obtain ⟨r, _, rfl⟩ := he
  exact entry_props page hw r

/- ================================================================
   C4 groundwork: the serialiser fold
   ================================================================ -/

/-- Concatenation of uniformly bounded blocks. -/
theorem flatten_len_le (L : List (List Nat)) (c : Nat) (h : ∀ x ∈ L, x.length ≤ c) :
    L.flatten.length ≤ c * L.length := by
  induction L with
  | nil => simp
  | cons x xs ih =>
    simp only [List.flatten_cons, List.length_append, List.length_cons, Nat.mul_succ]
    have h1 := h x (by simp)
    have h2 := ih (fun y hy => h y (by simp [hy]))
    omega

/-- The serialiser's row fold with all its buffer guards true, written as
the concatenation of per-row blocks. -/
theorem serialize_fold_spec (page : VbiPage) (hw : WfPage page) (idxs : List Nat) :
    ∀ buf : List Nat, buf.length + 243 * idxs.length ≤ 8187 →
    idxs.foldl
      (fun buf r =>
        let erow := json_escape (rtrimSpaces (build_row page r)) []
        let buf1 := if 0 < r ∧ buf.length < 8190 then buf ++ [44] else buf
        let buf2 := if buf1.length < 8188 then buf1 ++ [34] else buf1
        let buf3 := if buf2.length + erow.length < 8188 then buf2 ++ erow else buf2
        if buf3.length < 8190 then buf3 ++ [34] else buf3)
      buf
    = buf ++ (idxs.map (fun r =>
        (if 0 < r then [44] else []) ++
          34 :: (json_escape (rtrimSpaces (build_row page r)) [] ++ [34]))).flatten := by
  induction idxs with
  | nil =>
    intro buf _
    simp
  | cons r rs ih =>
    intro buf hlen
    simp only [List.length_cons, Nat.mul_succ] at hlen
    simp only [List.foldl_cons]
    have hE := (entry_props page hw r).1
    by_cases hr : 0 < r
    · have e1 : (if 0 < r ∧ buf.length < 8190 then buf ++ [44] else buf) = buf ++ [44] :=
        if_pos ⟨hr, by omega⟩
      have e2 : (if (buf ++ [44]).length < 8188 then (buf ++ [44]) ++ [34]
          else (buf ++ [44])) = (buf ++ [44]) ++ [34] :=
        if_pos (by simp only [List.length_append, List.length_cons, List.length_nil]; omega)
      have e3 : (if ((buf ++ [44]) ++ [34]).length +
            (json_escape (rtrimSpaces (build_row page r)) []).length < 8188
          then ((buf ++ [44]) ++ [34]) ++ json_escape (rtrimSpaces (build_row page r)) []
          else ((buf ++ [44]) ++ [34]))
          = ((buf ++ [44]) ++ [34]) ++ json_escape (rtrimSpaces (build_row page r)) [] :=
        if_pos (by simp only [List.length_append, List.length_cons, List.length_nil]; omega)
      have e4 : (if (((buf ++ [44]) ++ [34]) ++
              json_escape (rtrimSpaces (build_row page r)) []).length < 8190
          then (((buf ++ [44]) ++ [34]) ++
              json_escape (rtrimSpaces (build_row page r)) []) ++ [34]
          else (((buf ++ [44]) ++ [34]) ++ json_escape (rtrimSpaces (build_row page r)) []))
          = (((buf ++ [44]) ++ [34]) ++
              json_escape (rtrimSpaces (build_row page r)) []) ++ [34] :=
        if_pos (by simp only [List.length_append, List.length_cons, List.length_nil]; omega)
      rw [e1, e2, e3, e4]
      rw [ih _ (by simp only [List.length_append, List.length_cons, List.length_nil]; omega)]
      simp only [List.map_cons, List.flatten_cons, if_pos hr]
      simp [List.append_assoc]
    · have e1 : (if 0 < r ∧ buf.length < 8190 then buf ++ [44] else buf) = buf :=
        if_neg (fun hc => hr hc.1)
      have e2 : (if buf.length < 8188 then buf ++ [34] else buf) = buf ++ [34] :=
        if_pos (by omega)
      have e3 : (if (buf ++ [34]).length +
            (json_escape (rtrimSpaces (build_row page r)) []).length < 8188
          then (buf ++ [34]) ++ json_escape (rtrimSpaces (build_row page r)) []
          else (buf ++ [34]))
          = (buf ++ [34]) ++ json_escape (rtrimSpaces (build_row page r)) [] :=
        if_pos (by simp only [List.length_append, List.length_cons, List.length_nil]; omega)
      have e4 : (if ((buf ++ [34]) ++
              json_escape (rtrimSpaces (build_row page r)) []).length < 8190
          then ((buf ++ [34]) ++ json_escape (rtrimSpaces (build_row page r)) []) ++ [34]
          else ((buf ++ [34]) ++ json_escape (rtrimSpaces (build_row page r)) []))
          = ((buf ++ [34]) ++ json_escape (rtrimSpaces (build_row page r)) []) ++ [34] :=
        if_pos (by simp only [List.length_append, List.length_cons, List.length_nil]; omega)
      rw [e1, e2, e3, e4]
      rw [ih _ (by simp only [List.length_append, List.length_cons, List.length_nil]; omega)]
      simp only [List.map_cons, List.flatten_cons, if_neg hr]
      simp [List.append_assoc]

/-- The per-row blocks of a row list headed by row 0, as the quote-joined
entry list. -/
theorem join_shape_page (page : VbiPage) (rest : List Nat) (hpos : ∀ r ∈ rest, 0 < r) :
    ((0 :: rest).map (fun r => (if 0 < r then [44] else []) ++
        34 :: (json_escape (rtrimSpaces (build_row page r)) [] ++ [34]))).flatten
      = quoteJoin ((0 :: rest).map
          (fun r => json_escape (rtrimSpaces (build_row page r)) [])) := by
  simp only [List.map_cons, List.flatten_cons]
  rw [quoteJoin_cons_eq, List.map_map]
  have hmap : rest.map ((fun x => 44 :: 34 :: (x ++ [34])) ∘
        (fun r => json_escape (rtrimSpaces (build_row page r)) []))
      = rest.map (fun r => (if 0 < r then [44] else []) ++
          34 :: (json_escape (rtrimSpaces (build_row page r)) [] ++ [34])) := by
    apply List.map_congr_left
    intro r hr
    simp only [Function.comp]
    rw [if_pos (hpos r hr)]
    rfl
  rw [hmap]
  simp [List.append_assoc]

/-- Under the fetch contract and the emitted value ranges, the serialised
datagram is exactly the literal template over the escaped row entries. -/
theorem serialize_page_eq (pgno subno : Nat) (ts : Int) (page : VbiPage)
    (hw : WfPage page) (hpg : pgno < 10 ^ 9) (hsub : subno < 10 ^ 9)
    (hts : ts.natAbs < 10 ^ 18) :
    serialize_page pgno subno ts page =
      literal_datagram pgno subno ts (pageEntries page) := by
  have h1 := natDigits_len 8 pgno hpg
  have h2 := natDigits_len 8 subno hsub
  have h3 := fmtInt_len hts
  have hbuf0 : (hdrPage ++ natDigits pgno ++ hdrSubpage ++ natDigits subno ++
      hdrTs ++ fmtInt ts ++ hdrLines).length ≤ 72 := by
    simp only [List.length_append, hdrPage, hdrSubpage, hdrTs, hdrLines,
      List.length_cons, List.length_nil]
    omega
  have hrange : List.range 25 = 0 :: (List.range 24).map Nat.succ := by
    rw [← List.range_succ_eq_map]
  have hflat : ∀ x ∈ (List.range 25).map (fun r =>
      (if 0 < r then [44] else []) ++
        34 :: (json_escape (rtrimSpaces (build_row page r)) [] ++ [34])), x.length ≤ 243 := by
    intro x hx
    rw [List.mem_map] at hx
    obtain ⟨r, _, rfl⟩ := hx
    have hE := (entry_props page hw r).1
    by_cases hr : 0 < r
    · rw [if_pos hr]
      simp only [List.length_append, List.length_cons, List.length_nil]
      omega
    · rw [if_neg hr]
      simp only [List.length_append, List.length_cons, List.length_nil]
      omega
  have hfl : ((List.range 25).map (fun r =>
      (if 0 < r then [44] else []) ++
        34 :: (json_escape (rtrimSpaces (build_row page r)) [] ++ [34]))).flatten.length
      ≤ 6075 := by
    have := flatten_len_le _ 243 hflat
    simp only [List.length_map, List.length_range] at this
    omega
  unfold serialize_page
  rw [hw.1]
  dsimp only
  rw [serialize_fold_spec page hw (List.range 25)
    (hdrPage ++ natDigits pgno ++ hdrSubpage ++ natDigits subno ++
      hdrTs ++ fmtInt ts ++ hdrLines)
    (by simp only [List.length_range]; omega)]
  rw [if_pos (by simp only [List.length_append, hdrPage, hdrSubpage, hdrTs, hdrLines,
    List.length_cons, List.length_nil]; omega)]
  unfold literal_datagram pageEntries
  rw [hw.1, hrange]
  rw [join_shape_page page ((List.range 24).map Nat.succ)
    (by intro r hr; rw [List.mem_map] at hr; obtain ⟨x, _, rfl⟩ := hr; omega)]

/- ================================================================
   C4 groundwork: scanning the whole datagram
   ================================================================ -/

/-- The scan of the key `page` plus its closing quote. -/
theorem scanString_key_page (rest : List Nat) :
    scanString (112 :: 97 :: 103 :: 101 :: 34 :: rest) = some rest := by
  rw [scanString_plainstep 112 _ (by omega) (by omega) (by omega),
    scanString_plainstep 97 _ (by omega) (by omega) (by omega),
    scanString_plainstep 103 _ (by omega) (by omega) (by omega),
    scanString_plainstep 101 _ (by omega) (by omega) (by omega),
    scanString_quote]

/-- The scan of the key `subpage` plus its closing quote. -/
theorem scanString_key_subpage (rest : List Nat) :
    scanString (115 :: 117 :: 98 :: 112 :: 97 :: 103 :: 101 :: 34 :: rest) = some rest := by
  rw [scanString_plainstep 115 _ (by omega) (by omega) (by omega),
    scanString_plainstep 117 _ (by omega) (by omega) (by omega),
    scanString_plainstep 98 _ (by omega) (by omega) (by omega),
    scanString_key_page]

/-- The scan of the key `ts` plus its closing quote. -/
theorem scanString_key_ts (rest : List Nat) :
    scanString (116 :: 115 :: 34 :: rest) = some rest := by
  rw [scanString_plainstep 116 _ (by omega) (by omega) (by omega),
    scanString_plainstep 115 _ (by omega) (by omega) (by omega),
    scanString_quote]

/-- The scan of the key `lines` plus its closing quote. -/
theorem scanString_key_lines (rest : List Nat) :
    scanString (108 :: 105 :: 110 :: 101 :: 115 :: 34 :: rest) = some rest := by
  rw [scanString_plainstep 108 _ (by omega) (by omega) (by omega),
    scanString_plainstep 105 _ (by omega) (by omega) (by omega),
    scanString_plainstep 110 _ (by omega) (by omega) (by omega),
    scanString_plainstep 101 _ (by omega) (by omega) (by omega),
    scanString_plainstep 115 _ (by omega) (by omega) (by omega),
    scanString_quote]

/-- A literal datagram over 25 exactly-scanning entries is consumed as
one JSON value, leaving the trailing newline. -/
theorem scan_datagram (f : Nat) (hf : 24 ≤ f) (pgno subno : Nat) (ts : Int)
    (es : List (List Nat)) (hlen : es.length = 25) (hes : ∀ e ∈ es, ScanOk e) :
    scanValue (f + 1 + 1 + 1 + 1 + 1 + 1) (literal_datagram pgno subno ts es)
      = some [10] := by
  unfold literal_datagram
  simp only [hdrPage, hdrSubpage, hdrTs, hdrLines, tailBytes, List.cons_append,
    List.nil_append, List.append_assoc]
  rw [scanValue_objstep (f + 1 + 1 + 1 + 1 + 1) _ _ _ (scanString_key_page _)
    (scanValue_natNum (f + 1 + 1 + 1 + 1) pgno 44 _ (by decide))]
  rw [scanObjRest_member (f + 1 + 1 + 1 + 1) _ _ _ (scanString_key_subpage _)
    (scanValue_natNum (f + 1 + 1 + 1) subno 44 _ (by decide))]
  rw [scanObjRest_member (f + 1 + 1 + 1) _ _ _ (scanString_key_ts _)
    (scanValue_intNum (f + 1 + 1) ts 44 _ (by decide))]
  rw [scanObjRest_member (f + 1 + 1) _ _ _ (scanString_key_lines _)
    (scanValue_lines f hf es hlen hes _)]
  rw [scanObjRest_close (f + 1)]

/-- C4 — Datagram shape: for every UDP datagram the page serialiser emits
from a fetched page grid (under the spec's fetch contract and the emitted
value ranges), the `lines` array has exactly 25 string entries, each entry
is valid UTF-8, no entry ends in a space, and the whole datagram is the
literal form `\x7b"page":P,"subpage":S,"ts":T,"lines":["r0",...,"r24"]\x7d`
followed by one newline, which parses as a JSON value leaving exactly that
newline. -/
theorem C4_datagram_shape (pgno subno : Nat) (ts : Int) (page : VbiPage)
    (hw : WfPage page) (hpg : pgno < 10 ^ 9) (hsub : subno < 10 ^ 9)
    (hts : ts.natAbs < 10 ^ 18) :
    serialize_page pgno subno ts page =
      literal_datagram pgno subno ts (pageEntries page) ∧
    (pageEntries page).length = 25 ∧
    (∀ e ∈ pageEntries page, utf8Valid e = true ∧ e.getLast? ≠ some 32) ∧
    scanValue 64 (serialize_page pgno subno ts page) = some [10] := by
  refine ⟨serialize_page_eq pgno subno ts page hw hpg hsub hts, pageEntries_len page hw,
    fun e he => ⟨(pageEntries_mem page hw e he).2.1, (pageEntries_mem page hw e he).2.2.1⟩,
    ?_⟩
  rw [serialize_page_eq pgno subno ts page hw hpg hsub hts]
  have h := scan_datagram 58 (by omega) pgno subno ts (pageEntries page)
    (pageEntries_len page hw) (fun e he => (pageEntries_mem page hw e he).2.2.2)
  have h64 : (58 + 1 + 1 + 1 + 1 + 1 + 1 : Nat) = 64 := rfl
  rw [h64] at h
  exact h

/-- C4 witness: the hypotheses hold and the conclusion follows at the
all-blank 25×40 grid with page 100, subpage 0 and timestamp 0. -/
theorem C4_datagram_shape_witness :
    WfPage ⟨25, 40, []⟩ ∧ 100 < 10 ^ 9 ∧ 0 < 10 ^ 9 ∧ (0 : Int).natAbs < 10 ^ 18 ∧
    (serialize_page 100 0 0 ⟨25, 40, []⟩ =
        literal_datagram 100 0 0 (pageEntries ⟨25, 40, []⟩) ∧
      (pageEntries ⟨25, 40, []⟩).length = 25 ∧
      (∀ e ∈ pageEntries ⟨25, 40, []⟩, utf8Valid e = true ∧ e.getLast? ≠ some 32) ∧
      scanValue 64 (serialize_page 100 0 0 ⟨25, 40, []⟩) = some [10]) :=
  ⟨⟨rfl, rfl, by simp⟩, by decide, by decide, by decide,
    C4_datagram_shape 100 0 0 ⟨25, 40, []⟩ ⟨rfl, rfl, by simp⟩ (by decide) (by decide)
      (by decide)⟩
